import Mathlib

/-!
Verification of the outliner tree engine of the Second-brain-notes repository.

The embedding follows `src/components/NotesEditor.tsx`.  Nodes are the
`NoteNode` objects of `src/types.ts`:

* `id` (an opaque unique identifier) is modelled as `Nat`;
* `content` is the inline-HTML string, treated as opaque text by the tree
  engine exactly as the source does;
* timestamps (`Date`) are modelled as abstract instants `Nat`; operations that
  call `new Date()` receive the current instant as an explicit `now` argument;
* optional fields (`parentId?`, `isChecklist?`, `checked?`, `style?`,
  `collapsed?`) are `Option`s, with `none` for `undefined`.

The DOM-backed pieces of the editor (contentEditable surfaces, carets) are
modelled by their effect on the node data, as the specification's §4.4
stipulates: the editable surface mirrors `node.content`.
-/

/-- `style.size` enum of `NoteNode.style` (`'sm' | 'base' | 'lg' | 'xl'`). -/
inductive FontSize : Type where
  | sm | base | lg | xl
deriving DecidableEq, Repr, BEq

/-- Per-node `style` object: `{bold?, italic?, underline?, size?}`. -/
structure Style : Type where
  bold : Option Bool := none
  italic : Option Bool := none
  underline : Option Bool := none
  size : Option FontSize := none
deriving DecidableEq, Repr

/-- `NoteNode` of `src/types.ts`: a single outline entry.  The field order is
the interface's order. -/
inductive NoteNode : Type where
  | mk (id : Nat) (content : String) (children : List NoteNode)
       (parentId : Option Nat) (isChecklist : Option Bool) (checked : Option Bool)
       (style : Option Style) (collapsed : Option Bool)
       (createdAt : Nat) (updatedAt : Nat) : NoteNode
deriving Repr

namespace NoteNode

def id : NoteNode → Nat
  | mk i _ _ _ _ _ _ _ _ _ => i

def content : NoteNode → String
  | mk _ c _ _ _ _ _ _ _ _ => c

def children : NoteNode → List NoteNode
  | mk _ _ ch _ _ _ _ _ _ _ => ch

def parentId : NoteNode → Option Nat
  | mk _ _ _ p _ _ _ _ _ _ => p

def isChecklist : NoteNode → Option Bool
  | mk _ _ _ _ ic _ _ _ _ _ => ic

def checked : NoteNode → Option Bool
  | mk _ _ _ _ _ ck _ _ _ _ => ck

def style : NoteNode → Option Style
  | mk _ _ _ _ _ _ st _ _ _ => st

def collapsed : NoteNode → Option Bool
  | mk _ _ _ _ _ _ _ co _ _ => co

def createdAt : NoteNode → Nat
  | mk _ _ _ _ _ _ _ _ ca _ => ca

def updatedAt : NoteNode → Nat
  | mk _ _ _ _ _ _ _ _ _ ua => ua

/-- Object spread `{...n, children := ch}`. -/
def withChildren : NoteNode → List NoteNode → NoteNode
  | mk i c _ p ic ck st co ca ua, ch => mk i c ch p ic ck st co ca ua

/-- Object spread `{...n, content, updatedAt: new Date()}`. -/
def withContentStamp : NoteNode → String → Nat → NoteNode
  | mk i _ ch p ic ck st co ca _, c, now => mk i c ch p ic ck st co ca now

/-- Object spread `{...n, parentId}`. -/
def withParentId : NoteNode → Option Nat → NoteNode
  | mk i c ch _ ic ck st co ca ua, p => mk i c ch p ic ck st co ca ua

/-- Object spread `{...n, collapsed, updatedAt: new Date()}`. -/
def withCollapsedStamp : NoteNode → Option Bool → Nat → NoteNode
  | mk i c ch p ic ck st _ ca _, co, now => mk i c ch p ic ck st co ca now

/-- Object spread `{...n, style, updatedAt: new Date()}`. -/
def withStyleStamp : NoteNode → Option Style → Nat → NoteNode
  | mk i c ch p ic ck _ co ca _, st, now => mk i c ch p ic ck st co ca now

instance : Inhabited NoteNode := ⟨mk 0 "" [] none none none none none 0 0⟩

@[simp] theorem id_withChildren (n : NoteNode) (ch : List NoteNode) :
    (n.withChildren ch).id = n.id := by cases n; rfl

@[simp] theorem children_withChildren (n : NoteNode) (ch : List NoteNode) :
    (n.withChildren ch).children = ch := by cases n; rfl

@[simp] theorem withChildren_children (n : NoteNode) :
    n.withChildren n.children = n := by cases n; rfl

theorem sizeOf_children_lt (n : NoteNode) : sizeOf n.children < sizeOf n := by
  cases n with
  | mk i c ch p ic ck st co ca ua => simp [children]; omega

end NoteNode

/-- Total size of a forest for termination arguments. -/
theorem sizeOf_children_lt_cons (x : NoteNode) (xs : List NoteNode) :
    sizeOf x.children < sizeOf (x :: xs) := by
  have h := NoteNode.sizeOf_children_lt x
  simp only [List.cons.sizeOf_spec]
  omega

theorem sizeOf_tail_lt_cons (x : NoteNode) (xs : List NoteNode) :
    sizeOf xs < sizeOf (x :: xs) := by
  simp only [List.cons.sizeOf_spec]
  have : 0 < sizeOf x := by cases x; simp
  omega

/-- Induction principle for forests: property of a list of nodes, with the
inductive hypothesis available for each head's children and for the tail. -/
theorem forestInd (P : List NoteNode → Prop) (hnil : P [])
    (hcons : ∀ (x : NoteNode) (xs : List NoteNode),
      P x.children → P xs → P (x :: xs)) :
    ∀ f : List NoteNode, P f
  | [] => hnil
  | x :: xs =>
      hcons x xs (forestInd P hnil hcons x.children) (forestInd P hnil hcons xs)
termination_by f => sizeOf f
decreasing_by
  all_goals first
    | exact sizeOf_children_lt_cons _ _
    | exact sizeOf_tail_lt_cons _ _

/-! ### Tree mutation engine (translated from `NotesEditor.tsx`) -/

/-- `updateNodeContent` (NotesEditor.tsx 248-258): replace `content` and bump
`updatedAt` on exactly the target node; recurse into children otherwise. -/
def updateNodeContent (nodeId : Nat) (content : String) (now : Nat)
    (nodeList : List NoteNode) : List NoteNode :=
  nodeList.attach.map (fun x =>
    if x.1.id = nodeId then x.1.withContentStamp content now
    else if x.1.children.isEmpty then x.1
    else x.1.withChildren (updateNodeContent nodeId content now x.1.children))
termination_by sizeOf nodeList
decreasing_by
  have h1 := List.sizeOf_lt_of_mem x.2
  have h2 := NoteNode.sizeOf_children_lt x.1
  omega

/-- `deleteNode` (286-296): remove every node with the given id (with its
subtree) at every level — the source filters the list and recurses into the
children of the survivors. -/
def deleteNode (nodeId : Nat) (nodeList : List NoteNode) : List NoteNode :=
  (nodeList.filter (fun n => n.id ≠ nodeId)).attach.map (fun x =>
    x.1.withChildren (deleteNode nodeId x.1.children))
termination_by sizeOf nodeList
decreasing_by
  have h1 := List.sizeOf_lt_of_mem (List.mem_filter.mp x.2).1
  have h2 := NoteNode.sizeOf_children_lt x.1
  omega

/-- `findNodeById` (592-599): first node with the given id in depth-first
pre-order. -/
def findNodeById (list : List NoteNode) (targetId : Nat) : Option NoteNode :=
  match list with
  | [] => none
  | n :: rest =>
    if n.id = targetId then some n
    else
      match findNodeById n.children targetId with
      | some found => some found
      | none => findNodeById rest targetId
termination_by sizeOf list
decreasing_by
  · exact sizeOf_children_lt_cons n rest
  · exact sizeOf_tail_lt_cons n rest

/-- `findParentId` (583-590): id of the parent of the target node (`none` both
when the target is a root and when it is absent, like the source's
`parentId || null`). -/
def findParentId (list : List NoteNode) (targetId : Nat)
    (parentId : Option Nat := none) : Option Nat :=
  match list with
  | [] => none
  | n :: rest =>
    if n.id = targetId then parentId
    else
      match findParentId n.children targetId (some n.id) with
      | some found => some found
      | none => findParentId rest targetId parentId
termination_by sizeOf list
decreasing_by
  · exact sizeOf_children_lt_cons n rest
  · exact sizeOf_tail_lt_cons n rest

/-- `attachChildrenTo` (574-581): append `childrenToAdd` after the existing
children of the target node. -/
def attachChildrenTo (toId : Nat) (childrenToAdd : List NoteNode)
    (list : List NoteNode) : List NoteNode :=
  list.attach.map (fun x =>
    if x.1.id = toId then x.1.withChildren (x.1.children ++ childrenToAdd)
    else x.1.withChildren (attachChildrenTo toId childrenToAdd x.1.children))
termination_by sizeOf list
decreasing_by
  have h1 := List.sizeOf_lt_of_mem x.2
  have h2 := NoteNode.sizeOf_children_lt x.1
  omega

/-- `flattenVisibleNodes` (393-403): depth-first pre-order, descending into
children only when they exist and the node is not collapsed
(`n.children && n.children.length && !n.collapsed`). -/
def flattenVisibleNodes (list : List NoteNode) : List NoteNode :=
  match list with
  | [] => []
  | n :: rest =>
    n :: ((if ¬n.children.isEmpty ∧ n.collapsed ≠ some true
           then flattenVisibleNodes n.children else [])
          ++ flattenVisibleNodes rest)
termination_by sizeOf list
decreasing_by
  · exact sizeOf_children_lt_cons n rest
  · exact sizeOf_tail_lt_cons n rest

/-- `getTotalNodeCount` (826): total number of nodes, descendants included. -/
def getTotalNodeCount (list : List NoteNode) : Nat :=
  match list with
  | [] => 0
  | n :: rest => 1 + getTotalNodeCount n.children + getTotalNodeCount rest
termination_by sizeOf list
decreasing_by
  · exact sizeOf_children_lt_cons n rest
  · exact sizeOf_tail_lt_cons n rest

/-- `insertAfterNode` (355-371): insert `newNode` right after the first node
with id `afterNodeId` (depth-first); when no list contains that id the forest
comes back unchanged. -/
def insertAfterNode (afterNodeId : Nat) (newNode : NoteNode)
    (nodeList : List NoteNode) : List NoteNode :=
  match nodeList.findIdx? (fun n => n.id == afterNodeId) with
  | some index => nodeList.take (index + 1) ++ newNode :: nodeList.drop (index + 1)
  | none => nodeList.attach.map (fun x =>
      x.1.withChildren (insertAfterNode afterNodeId newNode x.1.children))
termination_by sizeOf nodeList
decreasing_by
  have h1 := List.sizeOf_lt_of_mem x.2
  have h2 := NoteNode.sizeOf_children_lt x.1
  omega

/-- `indentNode` (298-320): when the target has a previous sibling, splice the
target out and append it (with `parentId` updated) to that sibling's children;
when the target is first in its list (or absent) recurse into children. -/
def indentNode (nodeId : Nat) (nodeList : List NoteNode) : List NoteNode :=
  match nodeList.findIdx? (fun n => n.id == nodeId) with
  | some index =>
    if 0 < index then
      let nodeToIndent := nodeList.getD index default
      let previousNode := nodeList.getD (index - 1) default
      nodeList.take (index - 1)
        ++ (previousNode.withChildren
              (previousNode.children ++ [nodeToIndent.withParentId (some previousNode.id)]))
        :: nodeList.drop (index + 1)
    else nodeList.attach.map (fun x =>
      x.1.withChildren (indentNode nodeId x.1.children))
  | none => nodeList.attach.map (fun x =>
      x.1.withChildren (indentNode nodeId x.1.children))
termination_by sizeOf nodeList
decreasing_by
  all_goals
    have h1 := List.sizeOf_lt_of_mem x.2
    have h2 := NoteNode.sizeOf_children_lt x.1
    omega

/-- The `removeNode` helper inside `outdentNode` (326-344): depth-first search
removing the target from the list where it lives, reporting the removed node
and the id of its parent (`parentId` accumulator). -/
def removeNodeFrom (nodeId : Nat) (list : List NoteNode) (parentId : Option Nat) :
    List NoteNode × Option NoteNode × Option Nat :=
  match list with
  | [] => ([], none, parentId)
  | n :: rest =>
    if n.id = nodeId then (rest, some n, parentId)
    else
      match removeNodeFrom nodeId n.children (some n.id) with
      | (newChildren, some removed, childPid) =>
          (n.withChildren newChildren :: rest, some removed, childPid)
      | (_, none, _) =>
          match removeNodeFrom nodeId rest parentId with
          | (rest', removed, pid') => (n :: rest', removed, pid')
termination_by sizeOf list
decreasing_by
  · exact sizeOf_children_lt_cons n rest
  · exact sizeOf_tail_lt_cons n rest

/-- `outdentNode` (322-353): no-op at root level; otherwise remove the node and
re-insert it (its `parentId` re-pointed at the grandparent) right after its
former parent. -/
def outdentNode (nodeId : Nat) (nodeList : List NoteNode) : List NoteNode :=
  if nodeList.any (fun n => n.id == nodeId) then nodeList
  else
    match removeNodeFrom nodeId nodeList none with
    | (updated, some removed, some parentId) =>
        let grandParentId := findParentId updated parentId
        insertAfterNode parentId (removed.withParentId grandParentId) updated
    | (_, _, _) => nodeList

/-- `setNodeCollapsed` (679-689): set the `collapsed` flag and bump `updatedAt`
on the target node. -/
def setNodeCollapsed (nodeId : Nat) (collapsed : Bool) (now : Nat)
    (list : List NoteNode) : List NoteNode :=
  list.attach.map (fun x =>
    if x.1.id = nodeId then x.1.withCollapsedStamp (some collapsed) now
    else x.1.withChildren (setNodeCollapsed nodeId collapsed now x.1.children))
termination_by sizeOf list
decreasing_by
  have h1 := List.sizeOf_lt_of_mem x.2
  have h2 := NoteNode.sizeOf_children_lt x.1
  omega

/-- `updateNodeStyle` (622-633): apply `updater` to the node's style (an empty
style object when it has none, as in `updater(n.style || {})`) and bump
`updatedAt`. -/
def updateNodeStyle (nodeId : Nat) (updater : Style → Style) (now : Nat)
    (list : List NoteNode) : List NoteNode :=
  list.attach.map (fun x =>
    if x.1.id = nodeId then x.1.withStyleStamp (some (updater (x.1.style.getD {}))) now
    else x.1.withChildren (updateNodeStyle nodeId updater now x.1.children))
termination_by sizeOf list
decreasing_by
  have h1 := List.sizeOf_lt_of_mem x.2
  have h2 := NoteNode.sizeOf_children_lt x.1
  omega

/-- `order` array of `incFont`/`decFont` (666, 672). -/
def fontOrder : List FontSize := [FontSize.sm, FontSize.base, FontSize.lg, FontSize.xl]

/-- `setFontSize` (664). -/
def setFontSize (nodeId : Nat) (size : FontSize) (now : Nat)
    (nodes : List NoteNode) : List NoteNode :=
  updateNodeStyle nodeId (fun s => { s with size := some size }) now nodes

/-- `incFont` (665-670): missing `style.size` reads as `base`
(`?.style?.size || 'base'`); the index saturates at the top of the order. -/
def incFont (nodeId : Nat) (now : Nat) (nodes : List NoteNode) : List NoteNode :=
  let current := (((findNodeById nodes nodeId).bind NoteNode.style).bind Style.size).getD FontSize.base
  let idx := min (fontOrder.length - 1) (fontOrder.findIdx (fun s => s == current) + 1)
  setFontSize nodeId (fontOrder.getD idx FontSize.base) now nodes

/-- `decFont` (671-676): missing `style.size` reads as `base`; the index
saturates at the bottom of the order. -/
def decFont (nodeId : Nat) (now : Nat) (nodes : List NoteNode) : List NoteNode :=
  let current := (((findNodeById nodes nodeId).bind NoteNode.style).bind Style.size).getD FontSize.base
  let idx := max 0 (fontOrder.findIdx (fun s => s == current) - 1)
  setFontSize nodeId (fontOrder.getD idx FontSize.base) now nodes

/-! ### Backspace merge, enter split, backspace delete (handleKeyDown 707-843,
newBulletAtCaret 48-92) -/

/-- Scan for the first `>` and return the remainder after it (the tail of a
`<[^>]+>` match). -/
def findGt : List Char → Option (List Char)
  | [] => none
  | c :: r => if c = '>' then some r else findGt r

theorem findGt_length_lt : ∀ (l r : List Char), findGt l = some r → r.length < l.length
  | [], _, h => by simp [findGt] at h
  | c :: l, r, h => by
      simp only [findGt] at h
      by_cases hc : c = '>'
      · rw [if_pos hc] at h
        cases h
        simp
      · rw [if_neg hc] at h
        have := findGt_length_lt l r h
        simp only [List.length_cons]
        omega

/-- After a `<`, try to match `[^>]+>`: at least one non-`>` character, then
everything up to and including the first `>`.  Returns the remainder. -/
def tagEnd : List Char → Option (List Char)
  | [] => none
  | c :: r => if c = '>' then none else findGt r

theorem tagEnd_length_lt : ∀ (l r : List Char), tagEnd l = some r → r.length < l.length
  | [], _, h => by simp [tagEnd] at h
  | c :: l, r, h => by
      simp only [tagEnd] at h
      by_cases hc : c = '>'
      · simp [hc] at h
      · rw [if_neg hc] at h
        have := findGt_length_lt l r h
        simp only [List.length_cons]
        omega

/-- The `toPlain` helper of the Backspace merge branch (807):
`html.replace(/<[^>]+>/g, '')` — drop every maximal `<[^>]+>` tag, scanning
left to right. -/
def stripTagsAux : List Char → List Char
  | [] => []
  | c :: r =>
    if c = '<' then
      match h : tagEnd r with
      | some r' => stripTagsAux r'
      | none => c :: stripTagsAux r
    else c :: stripTagsAux r
termination_by l => l.length
decreasing_by
  · have := tagEnd_length_lt r r' h
    simp only [List.length_cons]
    omega
  · simp
  · simp

def stripTags (html : String) : String := ⟨stripTagsAux html.data⟩

/-- JavaScript whitespace class `\s` (the characters relevant to `\S$` / `^\S`
on inline note text). -/
def jsWhitespace (c : Char) : Bool :=
  c = ' ' || c = '\t' || c = '\n' || c = '\r' || c = '\x0b' || c = '\x0c' || c = ' '

/-- `/\S$/.test(s)`: the string ends with a non-whitespace character. -/
def endsNonWS (s : String) : Bool :=
  match s.data.getLast? with
  | some c => !jsWhitespace c
  | none => false

/-- `/^\S/.test(s)`: the string starts with a non-whitespace character. -/
def startsNonWS (s : String) : Bool :=
  match s.data.head? with
  | some c => !jsWhitespace c
  | none => false

/-- The Backspace merge branch of `handleKeyDown` (794-823), as the pure forest
operation `mergeIntoPrevious(nodeId)`: find the node's index in the flattened
visible list; when it has a predecessor there, concatenate the contents (one
space inserted iff both tag-stripped sides have non-whitespace abutting the
join), reattach the children, and delete the node.  The contentEditable
surfaces (`prevEl`/`currEl` innerHTML) mirror the stored `content`, which the
source itself uses as the fallback. -/
def mergeIntoPrevious (nodeId : Nat) (now : Nat) (nodes : List NoteNode) :
    List NoteNode :=
  let flat := flattenVisibleNodes nodes
  match flat.findIdx? (fun n => n.id == nodeId) with
  | some idx =>
    if 0 < idx then
      let prevId := (flat.getD (idx - 1) default).id
      let prevHtml := ((findNodeById nodes prevId).map NoteNode.content).getD ""
      let currHtml := ((findNodeById nodes nodeId).map NoteNode.content).getD ""
      let needsSpace := endsNonWS (stripTags prevHtml) && startsNonWS (stripTags currHtml)
      let mergedHtml := if needsSpace then prevHtml ++ " " ++ currHtml else prevHtml ++ currHtml
      let currChildren := ((findNodeById nodes nodeId).map NoteNode.children).getD []
      let withMerged := updateNodeContent prevId mergedHtml now nodes
      let withChildren := attachChildrenTo prevId currChildren withMerged
      deleteNode nodeId withChildren
    else nodes
  | none => nodes

/-- `newBulletAtCaret` (48-92) as the pure forest operation
`splitAtOffset(nodeId, k)`: the caret at logical offset `k` cuts the node's
content into a head (kept in place, `updateNodeContent`) and a tail that moves
into a freshly created node (fresh id, fresh timestamps, no children) inserted
immediately after the node (`insertAfterNode`). -/
def splitAtOffset (nodeId : Nat) (k : Nat) (freshId : Nat) (now : Nat)
    (nodes : List NoteNode) : List NoteNode :=
  let content := ((findNodeById nodes nodeId).map NoteNode.content).getD ""
  let headHTML := content.take k
  let tailHTML := content.drop k
  let newNode : NoteNode := .mk freshId tailHTML [] none none none none none now now
  let withHead := updateNodeContent nodeId headHTML now nodes
  insertAfterNode nodeId newNode withHead

/-- The Backspace key handling of `handleKeyDown` (794-842): merge into the
previous visible node when the caret is at the start and the node is not the
first visible one; otherwise delete the node when its plain text is empty and
the forest holds more than one node in total. -/
def handleBackspace (nodeId : Nat) (atStart : Bool) (now : Nat)
    (nodes : List NoteNode) : List NoteNode :=
  let flat := flattenVisibleNodes nodes
  let merge := match flat.findIdx? (fun n => n.id == nodeId) with
    | some idx => atStart && 0 < idx
    | none => false
  if merge then
    mergeIntoPrevious nodeId now nodes
  else
    let plain := stripTags (((findNodeById nodes nodeId).map NoteNode.content).getD "")
    if plain.data.all jsWhitespace ∧ 1 < getTotalNodeCount nodes then
      deleteNode nodeId nodes
    else nodes

/-! ### Persistence scheduler (`scheduleSave` 845-853, `handleContentChange`
855-859).

`scheduleSave` clears any pending timer and arms a fresh 400ms one carrying the
latest snapshot.  The model processes timestamped edit events in order: when an
edit arrives after the pending timer's deadline the timer has already fired
(issuing its save); otherwise the pending save is cancelled.  After the last
event the remaining timer fires. -/

def runScheduler : List (Nat × List NoteNode) → Option (Nat × List NoteNode) →
    List (List NoteNode) → List (List NoteNode)
  | [], none, saves => saves
  | [], some (_, pd), saves => saves ++ [pd]
  | (t, d) :: rest, pending, saves =>
    match pending with
    | some (dl, pd) =>
      if dl ≤ t then runScheduler rest (some (t + 400, d)) (saves ++ [pd])
      else runScheduler rest (some (t + 400, d)) saves
    | none => runScheduler rest (some (t + 400, d)) saves

/-- The saves issued for a sequence of `scheduleSave` events. -/
def savesFor (events : List (Nat × List NoteNode)) : List (List NoteNode) :=
  runScheduler events none []

/-- `handleContentChange` (855-859) over a burst of edits to one node: each
edit replaces the node's content (`updateNodeContent`) and schedules a save of
the updated snapshot. -/
def editChain (nodeId : Nat) (f : List NoteNode) :
    List (Nat × String) → List (Nat × List NoteNode)
  | [] => []
  | (t, c) :: rest =>
    let f1 := updateNodeContent nodeId c t f
    (t, f1) :: editChain nodeId f1 rest

/-! ### Verification infrastructure: node ids, pointwise maps, paths -/

/-- All nodes of a forest in depth-first pre-order. -/
def subtreeForest (l : List NoteNode) : List NoteNode :=
  match l with
  | [] => []
  | x :: xs => x :: (subtreeForest x.children ++ subtreeForest xs)
termination_by sizeOf l
decreasing_by
  all_goals first
    | exact sizeOf_children_lt_cons _ _
    | exact sizeOf_tail_lt_cons _ _

/-- All node ids of a forest. -/
def idsOf (l : List NoteNode) : List Nat := (subtreeForest l).map NoteNode.id

/-- The spec's §3/§4.2 invariant: ids are globally unique in the forest. -/
def NoDupIds (l : List NoteNode) : Prop := (idsOf l).Nodup

instance (l : List NoteNode) : Decidable (NoDupIds l) := by
  unfold NoDupIds; infer_instance

/-- Pointwise map applied at every node with the given id (stopping there, as
the source's `apply`/`map` helpers do); other nodes are rebuilt with mapped
children. -/
def mapAtId (tid : Nat) (g : NoteNode → NoteNode) (l : List NoteNode) :
    List NoteNode :=
  match l with
  | [] => []
  | x :: xs =>
    (if x.id = tid then g x else x.withChildren (mapAtId tid g x.children))
      :: mapAtId tid g xs
termination_by sizeOf l
decreasing_by
  all_goals first
    | exact sizeOf_children_lt_cons _ _
    | exact sizeOf_tail_lt_cons _ _

/-- Sibling list reached by a path of child indices (`[]` is the root list). -/
def getSubtrees : List NoteNode → List Nat → Option (List NoteNode)
  | l, [] => some l
  | l, i :: p =>
    match l[i]? with
    | some n => getSubtrees n.children p
    | none => none

/-- Replace the sibling list at a path of child indices. -/
def setSubtrees : List NoteNode → List Nat → List NoteNode → List NoteNode
  | _, [], l' => l'
  | [], _ :: _, _ => []
  | x :: xs, 0 :: p, l' => x.withChildren (setSubtrees x.children p l') :: xs
  | x :: xs, (i + 1) :: p, l' => x :: setSubtrees xs (i :: p) l'
termination_by l p _ => (p.length, l.length)

/-- Forest with every advisory `parentId` field cleared; the remaining shape
(ids, contents, child order, flags) is untouched. -/
def eraseParents (l : List NoteNode) : List NoteNode :=
  match l with
  | [] => []
  | x :: xs =>
    (x.withParentId none).withChildren (eraseParents x.children) :: eraseParents xs
termination_by sizeOf l
decreasing_by
  all_goals first
    | exact sizeOf_children_lt_cons _ _
    | exact sizeOf_tail_lt_cons _ _

/-- `nid` never sits at an index `> 0` of a sibling list: it has no previous
sibling anywhere in the forest (also true when it is absent). -/
def noPrevSib (nid : Nat) (l : List NoteNode) : Bool :=
  match l with
  | [] => true
  | x :: xs =>
    !(xs.any (fun n => n.id == nid)) && noPrevSib nid x.children && noPrevSib nid xs
termination_by sizeOf l
decreasing_by
  all_goals first
    | exact sizeOf_children_lt_cons _ _
    | exact sizeOf_tail_lt_cons _ _

/-! Projection lemmas for the object-spread helpers. -/

namespace NoteNode

@[simp] theorem id_withContentStamp (n : NoteNode) (c : String) (now : Nat) :
    (n.withContentStamp c now).id = n.id := by cases n; rfl

@[simp] theorem content_withContentStamp (n : NoteNode) (c : String) (now : Nat) :
    (n.withContentStamp c now).content = c := by cases n; rfl

@[simp] theorem children_withContentStamp (n : NoteNode) (c : String) (now : Nat) :
    (n.withContentStamp c now).children = n.children := by cases n; rfl

@[simp] theorem parentId_withContentStamp (n : NoteNode) (c : String) (now : Nat) :
    (n.withContentStamp c now).parentId = n.parentId := by cases n; rfl

@[simp] theorem isChecklist_withContentStamp (n : NoteNode) (c : String) (now : Nat) :
    (n.withContentStamp c now).isChecklist = n.isChecklist := by cases n; rfl

@[simp] theorem checked_withContentStamp (n : NoteNode) (c : String) (now : Nat) :
    (n.withContentStamp c now).checked = n.checked := by cases n; rfl

@[simp] theorem style_withContentStamp (n : NoteNode) (c : String) (now : Nat) :
    (n.withContentStamp c now).style = n.style := by cases n; rfl

@[simp] theorem collapsed_withContentStamp (n : NoteNode) (c : String) (now : Nat) :
    (n.withContentStamp c now).collapsed = n.collapsed := by cases n; rfl

@[simp] theorem createdAt_withContentStamp (n : NoteNode) (c : String) (now : Nat) :
    (n.withContentStamp c now).createdAt = n.createdAt := by cases n; rfl

@[simp] theorem updatedAt_withContentStamp (n : NoteNode) (c : String) (now : Nat) :
    (n.withContentStamp c now).updatedAt = now := by cases n; rfl

@[simp] theorem id_withParentId (n : NoteNode) (p : Option Nat) :
    (n.withParentId p).id = n.id := by cases n; rfl

@[simp] theorem content_withParentId (n : NoteNode) (p : Option Nat) :
    (n.withParentId p).content = n.content := by cases n; rfl

@[simp] theorem children_withParentId (n : NoteNode) (p : Option Nat) :
    (n.withParentId p).children = n.children := by cases n; rfl

@[simp] theorem parentId_withParentId (n : NoteNode) (p : Option Nat) :
    (n.withParentId p).parentId = p := by cases n; rfl

@[simp] theorem isChecklist_withParentId (n : NoteNode) (p : Option Nat) :
    (n.withParentId p).isChecklist = n.isChecklist := by cases n; rfl

@[simp] theorem checked_withParentId (n : NoteNode) (p : Option Nat) :
    (n.withParentId p).checked = n.checked := by cases n; rfl

@[simp] theorem style_withParentId (n : NoteNode) (p : Option Nat) :
    (n.withParentId p).style = n.style := by cases n; rfl

@[simp] theorem collapsed_withParentId (n : NoteNode) (p : Option Nat) :
    (n.withParentId p).collapsed = n.collapsed := by cases n; rfl

@[simp] theorem createdAt_withParentId (n : NoteNode) (p : Option Nat) :
    (n.withParentId p).createdAt = n.createdAt := by cases n; rfl

@[simp] theorem updatedAt_withParentId (n : NoteNode) (p : Option Nat) :
    (n.withParentId p).updatedAt = n.updatedAt := by cases n; rfl

@[simp] theorem id_withCollapsedStamp (n : NoteNode) (co : Option Bool) (now : Nat) :
    (n.withCollapsedStamp co now).id = n.id := by cases n; rfl

@[simp] theorem content_withCollapsedStamp (n : NoteNode) (co : Option Bool) (now : Nat) :
    (n.withCollapsedStamp co now).content = n.content := by cases n; rfl

@[simp] theorem children_withCollapsedStamp (n : NoteNode) (co : Option Bool) (now : Nat) :
    (n.withCollapsedStamp co now).children = n.children := by cases n; rfl

@[simp] theorem parentId_withCollapsedStamp (n : NoteNode) (co : Option Bool) (now : Nat) :
    (n.withCollapsedStamp co now).parentId = n.parentId := by cases n; rfl

@[simp] theorem isChecklist_withCollapsedStamp (n : NoteNode) (co : Option Bool) (now : Nat) :
    (n.withCollapsedStamp co now).isChecklist = n.isChecklist := by cases n; rfl

@[simp] theorem checked_withCollapsedStamp (n : NoteNode) (co : Option Bool) (now : Nat) :
    (n.withCollapsedStamp co now).checked = n.checked := by cases n; rfl

@[simp] theorem style_withCollapsedStamp (n : NoteNode) (co : Option Bool) (now : Nat) :
    (n.withCollapsedStamp co now).style = n.style := by cases n; rfl

@[simp] theorem collapsed_withCollapsedStamp (n : NoteNode) (co : Option Bool) (now : Nat) :
    (n.withCollapsedStamp co now).collapsed = co := by cases n; rfl

@[simp] theorem createdAt_withCollapsedStamp (n : NoteNode) (co : Option Bool) (now : Nat) :
    (n.withCollapsedStamp co now).createdAt = n.createdAt := by cases n; rfl

@[simp] theorem updatedAt_withCollapsedStamp (n : NoteNode) (co : Option Bool) (now : Nat) :
    (n.withCollapsedStamp co now).updatedAt = now := by cases n; rfl

@[simp] theorem id_withStyleStamp (n : NoteNode) (st : Option Style) (now : Nat) :
    (n.withStyleStamp st now).id = n.id := by cases n; rfl

@[simp] theorem content_withStyleStamp (n : NoteNode) (st : Option Style) (now : Nat) :
    (n.withStyleStamp st now).content = n.content := by cases n; rfl

@[simp] theorem children_withStyleStamp (n : NoteNode) (st : Option Style) (now : Nat) :
    (n.withStyleStamp st now).children = n.children := by cases n; rfl

@[simp] theorem parentId_withStyleStamp (n : NoteNode) (st : Option Style) (now : Nat) :
    (n.withStyleStamp st now).parentId = n.parentId := by cases n; rfl

@[simp] theorem isChecklist_withStyleStamp (n : NoteNode) (st : Option Style) (now : Nat) :
    (n.withStyleStamp st now).isChecklist = n.isChecklist := by cases n; rfl

@[simp] theorem checked_withStyleStamp (n : NoteNode) (st : Option Style) (now : Nat) :
    (n.withStyleStamp st now).checked = n.checked := by cases n; rfl

@[simp] theorem style_withStyleStamp (n : NoteNode) (st : Option Style) (now : Nat) :
    (n.withStyleStamp st now).style = st := by cases n; rfl

@[simp] theorem collapsed_withStyleStamp (n : NoteNode) (st : Option Style) (now : Nat) :
    (n.withStyleStamp st now).collapsed = n.collapsed := by cases n; rfl

@[simp] theorem createdAt_withStyleStamp (n : NoteNode) (st : Option Style) (now : Nat) :
    (n.withStyleStamp st now).createdAt = n.createdAt := by cases n; rfl

@[simp] theorem updatedAt_withStyleStamp (n : NoteNode) (st : Option Style) (now : Nat) :
    (n.withStyleStamp st now).updatedAt = now := by cases n; rfl

@[simp] theorem content_withChildren (n : NoteNode) (ch : List NoteNode) :
    (n.withChildren ch).content = n.content := by cases n; rfl

@[simp] theorem parentId_withChildren (n : NoteNode) (ch : List NoteNode) :
    (n.withChildren ch).parentId = n.parentId := by cases n; rfl

@[simp] theorem isChecklist_withChildren (n : NoteNode) (ch : List NoteNode) :
    (n.withChildren ch).isChecklist = n.isChecklist := by cases n; rfl

@[simp] theorem checked_withChildren (n : NoteNode) (ch : List NoteNode) :
    (n.withChildren ch).checked = n.checked := by cases n; rfl

@[simp] theorem style_withChildren (n : NoteNode) (ch : List NoteNode) :
    (n.withChildren ch).style = n.style := by cases n; rfl

@[simp] theorem collapsed_withChildren (n : NoteNode) (ch : List NoteNode) :
    (n.withChildren ch).collapsed = n.collapsed := by cases n; rfl

@[simp] theorem createdAt_withChildren (n : NoteNode) (ch : List NoteNode) :
    (n.withChildren ch).createdAt = n.createdAt := by cases n; rfl

@[simp] theorem updatedAt_withChildren (n : NoteNode) (ch : List NoteNode) :
    (n.withChildren ch).updatedAt = n.updatedAt := by cases n; rfl

end NoteNode

/-! Rewriting the `attach`-based recursions into plain `map` form, and basic
equations. -/

theorem attach_map_val_eq (l : List NoteNode) (G : NoteNode → NoteNode) :
    l.attach.map (fun x => G x.1) = l.map G :=
  List.attach_map_val l G

theorem updateNodeContent_eq (nid : Nat) (c : String) (now : Nat)
    (l : List NoteNode) :
    updateNodeContent nid c now l = l.map (fun n =>
      if n.id = nid then n.withContentStamp c now
      else if n.children.isEmpty then n
      else n.withChildren (updateNodeContent nid c now n.children)) := by
  rw [updateNodeContent]
  exact attach_map_val_eq l (fun n =>
    if n.id = nid then n.withContentStamp c now
    else if n.children.isEmpty then n
    else n.withChildren (updateNodeContent nid c now n.children))

theorem deleteNode_eq (nid : Nat) (l : List NoteNode) :
    deleteNode nid l = (l.filter (fun n => n.id ≠ nid)).map
      (fun n => n.withChildren (deleteNode nid n.children)) := by
  rw [deleteNode]
  exact attach_map_val_eq _ (fun n => n.withChildren (deleteNode nid n.children))

theorem attachChildrenTo_eq (tid : Nat) (cc : List NoteNode) (l : List NoteNode) :
    attachChildrenTo tid cc l = l.map (fun n =>
      if n.id = tid then n.withChildren (n.children ++ cc)
      else n.withChildren (attachChildrenTo tid cc n.children)) := by
  rw [attachChildrenTo]
  exact attach_map_val_eq l (fun n =>
    if n.id = tid then n.withChildren (n.children ++ cc)
    else n.withChildren (attachChildrenTo tid cc n.children))

theorem setNodeCollapsed_eq (nid : Nat) (b : Bool) (now : Nat) (l : List NoteNode) :
    setNodeCollapsed nid b now l = l.map (fun n =>
      if n.id = nid then n.withCollapsedStamp (some b) now
      else n.withChildren (setNodeCollapsed nid b now n.children)) := by
  rw [setNodeCollapsed]
  exact attach_map_val_eq l (fun n =>
    if n.id = nid then n.withCollapsedStamp (some b) now
    else n.withChildren (setNodeCollapsed nid b now n.children))

theorem updateNodeStyle_eq (nid : Nat) (u : Style → Style) (now : Nat)
    (l : List NoteNode) :
    updateNodeStyle nid u now l = l.map (fun n =>
      if n.id = nid then n.withStyleStamp (some (u (n.style.getD {}))) now
      else n.withChildren (updateNodeStyle nid u now n.children)) := by
  rw [updateNodeStyle]
  exact attach_map_val_eq l (fun n =>
    if n.id = nid then n.withStyleStamp (some (u (n.style.getD {}))) now
    else n.withChildren (updateNodeStyle nid u now n.children))

theorem insertAfterNode_found {aid : Nat} {l : List NoteNode} {i : Nat}
    (nn : NoteNode) (h : l.findIdx? (fun n => n.id == aid) = some i) :
    insertAfterNode aid nn l = l.take (i + 1) ++ nn :: l.drop (i + 1) := by
  rw [insertAfterNode, h]

theorem insertAfterNode_notFound {aid : Nat} {l : List NoteNode}
    (nn : NoteNode) (h : l.findIdx? (fun n => n.id == aid) = none) :
    insertAfterNode aid nn l
      = l.map (fun n => n.withChildren (insertAfterNode aid nn n.children)) := by
  rw [insertAfterNode, h]
  exact attach_map_val_eq l (fun n => n.withChildren (insertAfterNode aid nn n.children))

theorem indentNode_found {nid : Nat} {l : List NoteNode} {i : Nat}
    (h : l.findIdx? (fun n => n.id == nid) = some i) (hi : 0 < i) :
    indentNode nid l =
      l.take (i - 1)
        ++ ((l.getD (i - 1) default).withChildren
              ((l.getD (i - 1) default).children
                ++ [(l.getD i default).withParentId (some (l.getD (i - 1) default).id)]))
        :: l.drop (i + 1) := by
  rw [indentNode, h]
  simp [hi]

theorem indentNode_found_zero {nid : Nat} {l : List NoteNode}
    (h : l.findIdx? (fun n => n.id == nid) = some 0) :
    indentNode nid l = l.map (fun n => n.withChildren (indentNode nid n.children)) := by
  rw [indentNode, h]
  simp only [Nat.lt_irrefl, if_false]
  exact attach_map_val_eq l (fun n => n.withChildren (indentNode nid n.children))

theorem indentNode_notFound {nid : Nat} {l : List NoteNode}
    (h : l.findIdx? (fun n => n.id == nid) = none) :
    indentNode nid l = l.map (fun n => n.withChildren (indentNode nid n.children)) := by
  rw [indentNode, h]
  exact attach_map_val_eq l (fun n => n.withChildren (indentNode nid n.children))

@[simp] theorem subtreeForest_nil : subtreeForest [] = [] := by
  rw [subtreeForest]

theorem subtreeForest_cons (x : NoteNode) (xs : List NoteNode) :
    subtreeForest (x :: xs) = x :: (subtreeForest x.children ++ subtreeForest xs) := by
  rw [subtreeForest]

@[simp] theorem idsOf_nil : idsOf [] = [] := by
  simp [idsOf]

theorem idsOf_cons (x : NoteNode) (xs : List NoteNode) :
    idsOf (x :: xs) = x.id :: (idsOf x.children ++ idsOf xs) := by
  simp [idsOf, subtreeForest_cons]

theorem mapAtId_nil (tid : Nat) (g : NoteNode → NoteNode) : mapAtId tid g [] = [] := by
  rw [mapAtId]

theorem mapAtId_cons (tid : Nat) (g : NoteNode → NoteNode) (x : NoteNode)
    (xs : List NoteNode) :
    mapAtId tid g (x :: xs) =
      (if x.id = tid then g x else x.withChildren (mapAtId tid g x.children))
        :: mapAtId tid g xs := by
  rw [mapAtId]

theorem deleteNode_nil (nid : Nat) : deleteNode nid [] = [] := by
  rw [deleteNode_eq]; rfl

theorem deleteNode_cons (nid : Nat) (x : NoteNode) (xs : List NoteNode) :
    deleteNode nid (x :: xs) =
      if x.id = nid then deleteNode nid xs
      else x.withChildren (deleteNode nid x.children) :: deleteNode nid xs := by
  by_cases h : x.id = nid
  · rw [deleteNode_eq, List.filter_cons, if_neg (by simp [h]), if_pos h, ← deleteNode_eq]
  · rw [deleteNode_eq, List.filter_cons, if_pos (by simp [h]), List.map_cons,
      if_neg h, ← deleteNode_eq]

theorem findNodeById_nil (tid : Nat) : findNodeById [] tid = none := by
  rw [findNodeById]

theorem findNodeById_cons (x : NoteNode) (xs : List NoteNode) (tid : Nat) :
    findNodeById (x :: xs) tid =
      if x.id = tid then some x
      else
        match findNodeById x.children tid with
        | some found => some found
        | none => findNodeById xs tid := by
  rw [findNodeById]

theorem updateNodeContent_mapAtId (nid : Nat) (c : String) (now : Nat) :
    ∀ l, updateNodeContent nid c now l
      = mapAtId nid (fun n => n.withContentStamp c now) l := by
  intro l
  induction l using forestInd with
  | hnil => rw [updateNodeContent_eq, List.map_nil, mapAtId_nil]
  | hcons x xs ihc iht =>
    rw [updateNodeContent_eq, List.map_cons, mapAtId_cons, ← updateNodeContent_eq, iht]
    congr 1
    by_cases h : x.id = nid
    · rw [if_pos h, if_pos h]
    · rw [if_neg h, if_neg h]
      by_cases he : x.children.isEmpty
      · have hc : x.children = [] := List.isEmpty_iff.mp he
        rw [if_pos he, hc, mapAtId_nil, ← hc, NoteNode.withChildren_children]
      · rw [if_neg he, ihc]

theorem attachChildrenTo_mapAtId (tid : Nat) (cc : List NoteNode) :
    ∀ l, attachChildrenTo tid cc l
      = mapAtId tid (fun n => n.withChildren (n.children ++ cc)) l := by
  intro l
  induction l using forestInd with
  | hnil => rw [attachChildrenTo_eq, List.map_nil, mapAtId_nil]
  | hcons x xs ihc iht =>
    rw [attachChildrenTo_eq, List.map_cons, mapAtId_cons, ← attachChildrenTo_eq, iht]
    congr 1
    by_cases h : x.id = tid
    · rw [if_pos h, if_pos h]
    · rw [if_neg h, if_neg h, ihc]

theorem setNodeCollapsed_mapAtId (nid : Nat) (b : Bool) (now : Nat) :
    ∀ l, setNodeCollapsed nid b now l
      = mapAtId nid (fun n => n.withCollapsedStamp (some b) now) l := by
  intro l
  induction l using forestInd with
  | hnil => rw [setNodeCollapsed_eq, List.map_nil, mapAtId_nil]
  | hcons x xs ihc iht =>
    rw [setNodeCollapsed_eq, List.map_cons, mapAtId_cons, ← setNodeCollapsed_eq, iht]
    congr 1
    by_cases h : x.id = nid
    · rw [if_pos h, if_pos h]
    · rw [if_neg h, if_neg h, ihc]

theorem updateNodeStyle_mapAtId (nid : Nat) (u : Style → Style) (now : Nat) :
    ∀ l, updateNodeStyle nid u now l
      = mapAtId nid (fun n => n.withStyleStamp (some (u (n.style.getD {}))) now) l := by
  intro l
  induction l using forestInd with
  | hnil => rw [updateNodeStyle_eq, List.map_nil, mapAtId_nil]
  | hcons x xs ihc iht =>
    rw [updateNodeStyle_eq, List.map_cons, mapAtId_cons, ← updateNodeStyle_eq, iht]
    congr 1
    by_cases h : x.id = nid
    · rw [if_pos h, if_pos h]
    · rw [if_neg h, if_neg h, ihc]

/-! `idsOf` and `NoDupIds` toolkit. -/

theorem idsOf_append : ∀ (a b : List NoteNode), idsOf (a ++ b) = idsOf a ++ idsOf b
  | [], b => by simp
  | x :: a, b => by
    rw [List.cons_append, idsOf_cons, idsOf_cons, idsOf_append a b]
    simp [List.append_assoc]

theorem mem_idsOf_cons {a : Nat} {x : NoteNode} {xs : List NoteNode} :
    a ∈ idsOf (x :: xs) ↔ a = x.id ∨ a ∈ idsOf x.children ∨ a ∈ idsOf xs := by
  rw [idsOf_cons]
  simp [List.mem_cons, List.mem_append]

theorem noDupIds_cons {x : NoteNode} {xs : List NoteNode} :
    NoDupIds (x :: xs) ↔
      x.id ∉ idsOf x.children ∧ x.id ∉ idsOf xs
      ∧ NoDupIds x.children ∧ NoDupIds xs
      ∧ ∀ a ∈ idsOf x.children, a ∉ idsOf xs := by
  unfold NoDupIds
  rw [idsOf_cons, List.nodup_cons, List.nodup_append, List.mem_append]
  constructor
  · rintro ⟨h1, h2, h3, h4⟩
    push_neg at h1
    exact ⟨h1.1, h1.2, h2, h3, h4⟩
  · rintro ⟨h1, h2, h3, h4, h5⟩
    exact ⟨by push_neg; exact ⟨h1, h2⟩, h3, h4, h5⟩

theorem mapAtId_of_not_mem {tid : Nat} {g : NoteNode → NoteNode} :
    ∀ {l}, tid ∉ idsOf l → mapAtId tid g l = l := by
  intro l
  induction l using forestInd with
  | hnil => intro _; rw [mapAtId_nil]
  | hcons x xs ihc iht =>
    intro h
    rw [mem_idsOf_cons] at h
    push_neg at h
    obtain ⟨h1, h2, h3⟩ := h
    rw [mapAtId_cons, if_neg (fun hh => h1 hh.symm), ihc h2, iht h3,
      NoteNode.withChildren_children]

theorem findNodeById_eq_none {tid : Nat} :
    ∀ {l}, tid ∉ idsOf l → findNodeById l tid = none := by
  intro l
  induction l using forestInd with
  | hnil => intro _; rw [findNodeById_nil]
  | hcons x xs ihc iht =>
    intro h
    rw [mem_idsOf_cons] at h
    push_neg at h
    obtain ⟨h1, h2, h3⟩ := h
    rw [findNodeById_cons, if_neg (fun hh => h1 hh.symm), ihc h2, iht h3]

theorem findNodeById_mem {tid : Nat} :
    ∀ {l y}, findNodeById l tid = some y → y ∈ subtreeForest l ∧ y.id = tid := by
  intro l
  induction l using forestInd with
  | hnil => intro y h; rw [findNodeById_nil] at h; cases h
  | hcons x xs ihc iht =>
    intro y h
    rw [findNodeById_cons] at h
    by_cases hx : x.id = tid
    · rw [if_pos hx] at h
      cases h
      exact ⟨by rw [subtreeForest_cons]; exact List.mem_cons_self _ _, hx⟩
    · rw [if_neg hx] at h
      rcases hc : findNodeById x.children tid with _ | z
      · rw [hc] at h
        obtain ⟨hm, hi⟩ := iht h
        refine ⟨?_, hi⟩
        rw [subtreeForest_cons]
        exact List.mem_cons_of_mem _ (List.mem_append_right _ hm)
      · rw [hc] at h
        cases h
        obtain ⟨hm, hi⟩ := ihc hc
        refine ⟨?_, hi⟩
        rw [subtreeForest_cons]
        exact List.mem_cons_of_mem _ (List.mem_append_left _ hm)

theorem findNodeById_isSome {tid : Nat} :
    ∀ {l}, tid ∈ idsOf l → ∃ y, findNodeById l tid = some y := by
  intro l
  induction l using forestInd with
  | hnil => intro h; simp at h
  | hcons x xs ihc iht =>
    intro h
    rw [findNodeById_cons]
    by_cases hx : x.id = tid
    · exact ⟨x, by rw [if_pos hx]⟩
    · rw [mem_idsOf_cons] at h
      rcases h with h1 | h2 | h3
      · exact absurd h1.symm hx
      · obtain ⟨y, hy⟩ := ihc h2
        refine ⟨y, ?_⟩
        rw [if_neg hx, hy]
      · rcases hc : findNodeById x.children tid with _ | z
        · obtain ⟨y, hy⟩ := iht h3
          refine ⟨y, ?_⟩
          rw [if_neg hx]
          exact hy
        · refine ⟨z, ?_⟩
          rw [if_neg hx]

theorem topIds_sublist : ∀ l : List NoteNode, (l.map NoteNode.id).Sublist (idsOf l)
  | [] => by simp
  | x :: xs => by
    rw [List.map_cons, idsOf_cons]
    exact List.Sublist.cons₂ _ ((topIds_sublist xs).trans (List.sublist_append_right _ _))

theorem NoDupIds.topIds_nodup {l : List NoteNode} (h : NoDupIds l) :
    (l.map NoteNode.id).Nodup :=
  List.Nodup.sublist (topIds_sublist l) h

theorem mem_subtreeForest_of_mem : ∀ {l : List NoteNode} {y : NoteNode},
    y ∈ l → y ∈ subtreeForest l := by
  intro l
  induction l with
  | nil => intro y h; cases h
  | cons x xs ih =>
    intro y h
    rw [subtreeForest_cons]
    rcases List.mem_cons.mp h with h | h
    · exact h ▸ List.mem_cons_self _ _
    · exact List.mem_cons_of_mem _ (List.mem_append_right _ (ih h))

theorem subtreeForest_facts : ∀ {l : List NoteNode} {y : NoteNode},
    y ∈ subtreeForest l →
      y.id ∈ idsOf l ∧ ∀ a ∈ idsOf y.children, a ∈ idsOf l := by
  intro l
  induction l using forestInd with
  | hnil => intro y h; simp at h
  | hcons x xs ihc iht =>
    intro y h
    rw [subtreeForest_cons] at h
    rcases List.mem_cons.mp h with h | h
    · subst h
      constructor
      · rw [mem_idsOf_cons]; exact Or.inl rfl
      · intro a ha
        rw [mem_idsOf_cons]; exact Or.inr (Or.inl ha)
    · rcases List.mem_append.mp h with h | h
      · obtain ⟨h1, h2⟩ := ihc h
        constructor
        · rw [mem_idsOf_cons]; exact Or.inr (Or.inl h1)
        · intro a ha
          rw [mem_idsOf_cons]; exact Or.inr (Or.inl (h2 a ha))
      · obtain ⟨h1, h2⟩ := iht h
        constructor
        · rw [mem_idsOf_cons]; exact Or.inr (Or.inr h1)
        · intro a ha
          rw [mem_idsOf_cons]; exact Or.inr (Or.inr (h2 a ha))

theorem nodup_getElem?_inj {α} {l : List α} (h : l.Nodup) {i j : Nat} {a : α}
    (hi : l[i]? = some a) (hj : l[j]? = some a) : i = j := by
  have hil : i < l.length := by
    by_contra hc
    rw [List.getElem?_eq_none (by omega)] at hi
    cases hi
  have hjl : j < l.length := by
    by_contra hc
    rw [List.getElem?_eq_none (by omega)] at hj
    cases hj
  rw [List.getElem?_eq_getElem hil] at hi
  rw [List.getElem?_eq_getElem hjl] at hj
  have : l[i] = l[j] := by
    rw [Option.some_inj.mp hi, Option.some_inj.mp hj]
  exact (List.Nodup.getElem_inj_iff h).mp this

theorem findIdx?_eq_some_of_getElem {α} {p : α → Bool} :
    ∀ {l : List α} {i : Nat} {a : α}, l[i]? = some a → p a = true →
      (∀ j b, j < i → l[j]? = some b → p b = false) →
      l.findIdx? p = some i := by
  intro l
  induction l with
  | nil => intro i a h; simp at h
  | cons x xs ih =>
    intro i a h hp hprev
    cases i with
    | zero =>
      rw [List.getElem?_cons_zero] at h
      cases h
      rw [List.findIdx?_cons, if_pos hp]
    | succ i =>
      rw [List.getElem?_cons_succ] at h
      have hx : p x = false := hprev 0 x (Nat.succ_pos i) List.getElem?_cons_zero
      rw [List.findIdx?_cons, if_neg (by simp [hx]), List.findIdx?_succ,
        ih h hp (fun j b hj hb =>
          hprev (j + 1) b (by omega) (by rw [List.getElem?_cons_succ]; exact hb))]
      rfl

/-- With globally unique ids, the index search of the source's
`findIndex(n => n.id === nodeId)` finds exactly the position of the node. -/
theorem findIdx?_id_of_nodup {l : List NoteNode} {i : Nat} {x : NoteNode}
    (hnd : (l.map NoteNode.id).Nodup) (h : l[i]? = some x) :
    l.findIdx? (fun n => n.id == x.id) = some i := by
  refine findIdx?_eq_some_of_getElem h (by simp) ?_
  intro j b hj hb
  simp only [beq_eq_false_iff_ne, ne_eq]
  intro hbx
  have hxi : (l.map NoteNode.id)[i]? = some x.id := by
    rw [List.getElem?_map, h, Option.map_some']
  have hxj : (l.map NoteNode.id)[j]? = some x.id := by
    rw [List.getElem?_map, hb, Option.map_some', hbx]
  have := nodup_getElem?_inj hnd hxj hxi
  omega

/-! Path navigation lemmas. -/

theorem getD_of_getElem? {α} {l : List α} {i : Nat} {a : α} (d : α)
    (h : l[i]? = some a) : l.getD i d = a := by
  simp [List.getD_eq_getElem?_getD, h]

theorem getSubtrees_nil (f : List NoteNode) : getSubtrees f [] = some f := rfl

theorem getSubtrees_cons_zero (x : NoteNode) (xs : List NoteNode) (p : List Nat) :
    getSubtrees (x :: xs) (0 :: p) = getSubtrees x.children p := by
  rw [getSubtrees, List.getElem?_cons_zero]

theorem getSubtrees_cons_succ (x : NoteNode) (xs : List NoteNode) (i : Nat)
    (p : List Nat) :
    getSubtrees (x :: xs) ((i + 1) :: p) = getSubtrees xs (i :: p) := by
  rw [getSubtrees, List.getElem?_cons_succ, getSubtrees]

theorem getSubtrees_nil_list (i : Nat) (p : List Nat) :
    getSubtrees ([] : List NoteNode) (i :: p) = none := by
  rw [getSubtrees]
  rfl

theorem setSubtrees_nil (f l' : List NoteNode) : setSubtrees f [] l' = l' := by
  rw [setSubtrees]

theorem setSubtrees_nil_list (i : Nat) (p : List Nat) (l' : List NoteNode) :
    setSubtrees [] (i :: p) l' = [] := by
  rw [setSubtrees]

theorem setSubtrees_cons_zero (x : NoteNode) (xs : List NoteNode) (p : List Nat)
    (l' : List NoteNode) :
    setSubtrees (x :: xs) (0 :: p) l'
      = x.withChildren (setSubtrees x.children p l') :: xs := by
  rw [setSubtrees]

theorem setSubtrees_cons_succ (x : NoteNode) (xs : List NoteNode) (i : Nat)
    (p : List Nat) (l' : List NoteNode) :
    setSubtrees (x :: xs) ((i + 1) :: p) l' = x :: setSubtrees xs (i :: p) l' := by
  rw [setSubtrees]

theorem setSubtrees_getSubtrees : ∀ (p : List Nat) (f l : List NoteNode),
    getSubtrees f p = some l → setSubtrees f p l = f
  | [], f, l, h => by
      rw [getSubtrees_nil, Option.some_inj] at h
      rw [setSubtrees_nil, h]
  | _ :: _, [], l, h => by
      rw [getSubtrees_nil_list] at h
      cases h
  | 0 :: p, x :: xs, l, h => by
      rw [getSubtrees_cons_zero] at h
      rw [setSubtrees_cons_zero, setSubtrees_getSubtrees p x.children l h,
        NoteNode.withChildren_children]
  | (i + 1) :: p, x :: xs, l, h => by
      rw [getSubtrees_cons_succ] at h
      rw [setSubtrees_cons_succ, setSubtrees_getSubtrees (i :: p) xs l h]
termination_by p f => (p.length, f.length)

theorem getSubtrees_setSubtrees : ∀ (p : List Nat) (f l X : List NoteNode),
    getSubtrees f p = some l → getSubtrees (setSubtrees f p X) p = some X
  | [], f, l, X, _ => by rw [setSubtrees_nil, getSubtrees_nil]
  | _ :: _, [], l, X, h => by
      rw [getSubtrees_nil_list] at h
      cases h
  | 0 :: p, x :: xs, l, X, h => by
      rw [getSubtrees_cons_zero] at h
      rw [setSubtrees_cons_zero, getSubtrees_cons_zero,
        NoteNode.children_withChildren]
      exact getSubtrees_setSubtrees p x.children l X h
  | (i + 1) :: p, x :: xs, l, X, h => by
      rw [getSubtrees_cons_succ] at h
      rw [setSubtrees_cons_succ, getSubtrees_cons_succ]
      exact getSubtrees_setSubtrees (i :: p) xs l X h
termination_by p f => (p.length, f.length)

theorem setSubtrees_setSubtrees : ∀ (p : List Nat) (f l X Y : List NoteNode),
    getSubtrees f p = some l →
      setSubtrees (setSubtrees f p X) p Y = setSubtrees f p Y
  | [], f, l, X, Y, _ => by rw [setSubtrees_nil, setSubtrees_nil]
  | _ :: _, [], l, X, Y, h => by
      rw [getSubtrees_nil_list] at h
      cases h
  | 0 :: p, x :: xs, l, X, Y, h => by
      rw [getSubtrees_cons_zero] at h
      rw [setSubtrees_cons_zero, setSubtrees_cons_zero, setSubtrees_cons_zero]
      congr 1
      cases x
      rw [NoteNode.children_withChildren]  -- children of withChildren
      rw [setSubtrees_setSubtrees p _ l X Y h]
      rfl
  | (i + 1) :: p, x :: xs, l, X, Y, h => by
      rw [getSubtrees_cons_succ] at h
      rw [setSubtrees_cons_succ, setSubtrees_cons_succ, setSubtrees_cons_succ,
        setSubtrees_setSubtrees (i :: p) xs l X Y h]
termination_by p f => (p.length, f.length)

theorem idsOf_getSubtrees_subset : ∀ (p : List Nat) (f l : List NoteNode),
    getSubtrees f p = some l → ∀ a ∈ idsOf l, a ∈ idsOf f
  | [], f, l, h => by
      rw [getSubtrees_nil, Option.some_inj] at h
      subst h
      exact fun a ha => ha
  | _ :: _, [], l, h => by
      rw [getSubtrees_nil_list] at h
      cases h
  | 0 :: p, x :: xs, l, h => by
      rw [getSubtrees_cons_zero] at h
      intro a ha
      rw [mem_idsOf_cons]
      exact Or.inr (Or.inl (idsOf_getSubtrees_subset p x.children l h a ha))
  | (i + 1) :: p, x :: xs, l, h => by
      rw [getSubtrees_cons_succ] at h
      intro a ha
      have := idsOf_getSubtrees_subset (i :: p) xs l h a ha
      rw [mem_idsOf_cons]
      exact Or.inr (Or.inr this)
termination_by p f => (p.length, f.length)

theorem idsOf_setSubtrees : ∀ (p : List Nat) (f l X : List NoteNode),
    getSubtrees f p = some l → idsOf X = idsOf l →
      idsOf (setSubtrees f p X) = idsOf f
  | [], f, l, X, h, hX => by
      rw [getSubtrees_nil, Option.some_inj] at h
      rw [setSubtrees_nil, hX, h]
  | _ :: _, [], l, X, h, _ => by
      rw [getSubtrees_nil_list] at h
      cases h
  | 0 :: p, x :: xs, l, X, h, hX => by
      rw [getSubtrees_cons_zero] at h
      rw [setSubtrees_cons_zero, idsOf_cons, idsOf_cons,
        NoteNode.id_withChildren, NoteNode.children_withChildren,
        idsOf_setSubtrees p x.children l X h hX]
  | (i + 1) :: p, x :: xs, l, X, h, hX => by
      rw [getSubtrees_cons_succ] at h
      rw [setSubtrees_cons_succ, idsOf_cons, idsOf_cons,
        idsOf_setSubtrees (i :: p) xs l X h hX]
termination_by p f => (p.length, f.length)

theorem idsOf_setSubtrees_sublist : ∀ (p : List Nat) (f l X : List NoteNode),
    getSubtrees f p = some l → (idsOf X).Sublist (idsOf l) →
      (idsOf (setSubtrees f p X)).Sublist (idsOf f)
  | [], f, l, X, h, hX => by
      rw [getSubtrees_nil, Option.some_inj] at h
      rw [setSubtrees_nil, h]
      exact hX
  | _ :: _, [], l, X, h, _ => by
      rw [getSubtrees_nil_list] at h
      cases h
  | 0 :: p, x :: xs, l, X, h, hX => by
      rw [getSubtrees_cons_zero] at h
      rw [setSubtrees_cons_zero, idsOf_cons, idsOf_cons,
        NoteNode.id_withChildren, NoteNode.children_withChildren]
      exact List.Sublist.cons₂ _
        (List.Sublist.append (idsOf_setSubtrees_sublist p x.children l X h hX)
          (List.Sublist.refl _))
  | (i + 1) :: p, x :: xs, l, X, h, hX => by
      rw [getSubtrees_cons_succ] at h
      rw [setSubtrees_cons_succ, idsOf_cons, idsOf_cons]
      exact List.Sublist.cons₂ _
        (List.Sublist.append (List.Sublist.refl _)
          (idsOf_setSubtrees_sublist (i :: p) xs l X h hX))
termination_by p f => (p.length, f.length)

theorem id_mem_idsOf_of_mem {z : NoteNode} {l : List NoteNode} (hz : z ∈ l) :
    z.id ∈ idsOf l :=
  (subtreeForest_facts (mem_subtreeForest_of_mem hz)).1

theorem findIdx?_id_eq_none_top {aid : Nat} {l : List NoteNode}
    (h : ∀ y ∈ l, y.id ≠ aid) : l.findIdx? (fun n => n.id == aid) = none := by
  rw [List.findIdx?_eq_none_iff]
  intro x hx
  simp [h x hx]

theorem findIdx?_id_eq_none {aid : Nat} {l : List NoteNode} (h : aid ∉ idsOf l) :
    l.findIdx? (fun n => n.id == aid) = none :=
  findIdx?_id_eq_none_top (fun y hy hh => h (hh ▸ id_mem_idsOf_of_mem hy))

/-- When the target id lives strictly below the top level (witnessed by a
nonempty path), no top-level node carries it. -/
theorem findIdx?_id_eq_none_of_inner {aid : Nat} :
    ∀ (q : List Nat) (i : Nat) (l l' : List NoteNode), NoDupIds l →
      getSubtrees l (i :: q) = some l' → aid ∈ idsOf l' →
      l.findIdx? (fun n => n.id == aid) = none
  | q, i, [], l', _, h, _ => by rw [getSubtrees_nil_list] at h; cases h
  | q, 0, x :: xs, l', hnd, h, hm => by
      rw [getSubtrees_cons_zero] at h
      obtain ⟨hxc, hxt, hndc, hndt, hdisj⟩ := noDupIds_cons.mp hnd
      have hsub : aid ∈ idsOf x.children := idsOf_getSubtrees_subset q _ l' h aid hm
      refine findIdx?_id_eq_none_top ?_
      intro y hy
      rcases List.mem_cons.mp hy with hy | hy
      · subst hy
        exact fun hh => hxc (hh ▸ hsub)
      · exact fun hh => hdisj aid hsub (hh ▸ id_mem_idsOf_of_mem hy)
  | q, i + 1, x :: xs, l', hnd, h, hm => by
      rw [getSubtrees_cons_succ] at h
      obtain ⟨hxc, hxt, hndc, hndt, hdisj⟩ := noDupIds_cons.mp hnd
      have hsub : aid ∈ idsOf xs := idsOf_getSubtrees_subset (i :: q) _ l' h aid hm
      have hrest := findIdx?_id_eq_none_of_inner q i xs l' hndt h hm
      have hxne : (x.id == aid) = false := by
        simp only [beq_eq_false_iff_ne, ne_eq]
        exact fun hh => hxt (hh ▸ hsub)
      rw [List.findIdx?_cons, if_neg (by simp [hxne]), List.findIdx?_succ, hrest]
      rfl
termination_by q i l => (q.length, l.length)

theorem mapAtId_localized {tid : Nat} {g : NoteNode → NoteNode} :
    ∀ (p : List Nat) (f l : List NoteNode), NoDupIds f → getSubtrees f p = some l →
      tid ∈ idsOf l → mapAtId tid g f = setSubtrees f p (mapAtId tid g l)
  | [], f, l, _, h, _ => by
      rw [getSubtrees_nil, Option.some_inj] at h
      subst h
      rw [setSubtrees_nil]
  | _ :: _, [], l, _, h, _ => by rw [getSubtrees_nil_list] at h; cases h
  | 0 :: p, x :: xs, l, hnd, h, hm => by
      rw [getSubtrees_cons_zero] at h
      obtain ⟨hxc, hxt, hndc, hndt, hdisj⟩ := noDupIds_cons.mp hnd
      have hsub : tid ∈ idsOf x.children := idsOf_getSubtrees_subset p _ l h tid hm
      have hxid : ¬(x.id = tid) := fun hh => hxc (hh ▸ hsub)
      have hnxs : tid ∉ idsOf xs := fun hh => hdisj tid hsub hh
      rw [mapAtId_cons, if_neg hxid, mapAtId_of_not_mem hnxs,
        mapAtId_localized p x.children l hndc h hm, setSubtrees_cons_zero]
  | (i + 1) :: p, x :: xs, l, hnd, h, hm => by
      rw [getSubtrees_cons_succ] at h
      obtain ⟨hxc, hxt, hndc, hndt, hdisj⟩ := noDupIds_cons.mp hnd
      have hsub : tid ∈ idsOf xs := idsOf_getSubtrees_subset (i :: p) _ l h tid hm
      have hxid : ¬(x.id = tid) := fun hh => hxt (hh ▸ hsub)
      have hnch : tid ∉ idsOf x.children := fun hh => hdisj tid hh hsub
      rw [mapAtId_cons, if_neg hxid, mapAtId_of_not_mem hnch,
        NoteNode.withChildren_children,
        mapAtId_localized (i :: p) xs l hndt h hm, setSubtrees_cons_succ]
termination_by p f => (p.length, f.length)

theorem insertAfterNode_of_not_mem {aid : Nat} (nn : NoteNode) :
    ∀ {l}, aid ∉ idsOf l → insertAfterNode aid nn l = l := by
  intro l
  induction l using forestInd with
  | hnil =>
    intro h
    rw [insertAfterNode_notFound nn (findIdx?_id_eq_none h), List.map_nil]
  | hcons x xs ihc iht =>
    intro h
    have h' := h
    rw [mem_idsOf_cons] at h'
    push_neg at h'
    obtain ⟨h1, h2, h3⟩ := h'
    rw [insertAfterNode_notFound nn (findIdx?_id_eq_none h), List.map_cons, ihc h2,
      NoteNode.withChildren_children,
      ← insertAfterNode_notFound nn (findIdx?_id_eq_none h3), iht h3]

theorem indentNode_of_not_mem {nid : Nat} :
    ∀ {l}, nid ∉ idsOf l → indentNode nid l = l := by
  intro l
  induction l using forestInd with
  | hnil =>
    intro h
    rw [indentNode_notFound (findIdx?_id_eq_none h), List.map_nil]
  | hcons x xs ihc iht =>
    intro h
    have h' := h
    rw [mem_idsOf_cons] at h'
    push_neg at h'
    obtain ⟨h1, h2, h3⟩ := h'
    rw [indentNode_notFound (findIdx?_id_eq_none h), List.map_cons, ihc h2,
      NoteNode.withChildren_children,
      ← indentNode_notFound (findIdx?_id_eq_none h3), iht h3]

/-- Localization of `insertAfterNode` at the (unique) position of the target:
the new node lands right after the target inside its own sibling list and the
rest of the forest is untouched. -/
theorem insertAfterNode_localized {aid : Nat} (nn : NoteNode) :
    ∀ (p : List Nat) (f l : List NoteNode) (i : Nat) (x : NoteNode),
      NoDupIds f → getSubtrees f p = some l → l[i]? = some x → x.id = aid →
      insertAfterNode aid nn f
        = setSubtrees f p (l.take (i + 1) ++ nn :: l.drop (i + 1))
  | [], f, l, i, x, hnd, h, hx, hid => by
      rw [getSubtrees_nil, Option.some_inj] at h
      subst h
      rw [setSubtrees_nil]
      have hf := findIdx?_id_of_nodup hnd.topIds_nodup hx
      rw [hid] at hf
      exact insertAfterNode_found nn hf
  | _ :: _, [], l, i, x, hnd, h, hx, hid => by
      rw [getSubtrees_nil_list] at h; cases h
  | 0 :: p, y :: ys, l, i, x, hnd, h, hx, hid => by
      rw [getSubtrees_cons_zero] at h
      obtain ⟨hyc, hyt, hndc, hndt, hdisj⟩ := noDupIds_cons.mp hnd
      have hm : aid ∈ idsOf l := by
        have := id_mem_idsOf_of_mem (List.getElem?_mem hx)
        rwa [hid] at this
      have hsub : aid ∈ idsOf y.children := idsOf_getSubtrees_subset p _ l h aid hm
      have hnys : aid ∉ idsOf ys := fun hh => hdisj aid hsub hh
      have hnone : (y :: ys).findIdx? (fun n => n.id == aid) = none :=
        findIdx?_id_eq_none_of_inner p 0 (y :: ys) l hnd
          (by rw [getSubtrees_cons_zero]; exact h) hm
      rw [insertAfterNode_notFound nn hnone, List.map_cons,
        insertAfterNode_localized nn p y.children l i x hndc h hx hid,
        setSubtrees_cons_zero,
        ← insertAfterNode_notFound nn (findIdx?_id_eq_none hnys),
        insertAfterNode_of_not_mem nn hnys]
  | (j + 1) :: p, y :: ys, l, i, x, hnd, h, hx, hid => by
      rw [getSubtrees_cons_succ] at h
      obtain ⟨hyc, hyt, hndc, hndt, hdisj⟩ := noDupIds_cons.mp hnd
      have hm : aid ∈ idsOf l := by
        have := id_mem_idsOf_of_mem (List.getElem?_mem hx)
        rwa [hid] at this
      have hsub : aid ∈ idsOf ys := idsOf_getSubtrees_subset (j :: p) _ l h aid hm
      have hnch : aid ∉ idsOf y.children := fun hh => hdisj aid hh hsub
      have hnone : (y :: ys).findIdx? (fun n => n.id == aid) = none :=
        findIdx?_id_eq_none_of_inner p (j + 1) (y :: ys) l hnd
          (by rw [getSubtrees_cons_succ]; exact h) hm
      have hnoneYs : ys.findIdx? (fun n => n.id == aid) = none :=
        findIdx?_id_eq_none_of_inner p j ys l hndt h hm
      rw [insertAfterNode_notFound nn hnone, List.map_cons,
        insertAfterNode_of_not_mem nn hnch, NoteNode.withChildren_children,
        setSubtrees_cons_succ,
        ← insertAfterNode_notFound nn hnoneYs,
        insertAfterNode_localized nn (j :: p) ys l i x hndt h hx hid]
termination_by p f => (p.length, f.length)

/-- Localization of `indentNode`: the target (with its subtree) is removed from
its slot and appended, `parentId` re-pointed, to the previous sibling's
children; the rest of the forest is untouched. -/
theorem indentNode_localized {nid : Nat} :
    ∀ (p : List Nat) (f l : List NoteNode) (i : Nat) (x prev : NoteNode),
      NoDupIds f → getSubtrees f p = some l → l[i]? = some x → x.id = nid →
      0 < i → l[i - 1]? = some prev →
      indentNode nid f = setSubtrees f p
        (l.take (i - 1)
          ++ (prev.withChildren (prev.children ++ [x.withParentId (some prev.id)]))
          :: l.drop (i + 1))
  | [], f, l, i, x, prev, hnd, h, hx, hid, hi, hprev => by
      rw [getSubtrees_nil, Option.some_inj] at h
      subst h
      rw [setSubtrees_nil]
      have hf := findIdx?_id_of_nodup hnd.topIds_nodup hx
      rw [hid] at hf
      rw [indentNode_found hf hi, getD_of_getElem? default hx,
        getD_of_getElem? default hprev]
  | _ :: _, [], l, i, x, prev, hnd, h, hx, hid, hi, hprev => by
      rw [getSubtrees_nil_list] at h; cases h
  | 0 :: p, y :: ys, l, i, x, prev, hnd, h, hx, hid, hi, hprev => by
      rw [getSubtrees_cons_zero] at h
      obtain ⟨hyc, hyt, hndc, hndt, hdisj⟩ := noDupIds_cons.mp hnd
      have hm : nid ∈ idsOf l := by
        have := id_mem_idsOf_of_mem (List.getElem?_mem hx)
        rwa [hid] at this
      have hsub : nid ∈ idsOf y.children := idsOf_getSubtrees_subset p _ l h nid hm
      have hnys : nid ∉ idsOf ys := fun hh => hdisj nid hsub hh
      have hnone : (y :: ys).findIdx? (fun n => n.id == nid) = none :=
        findIdx?_id_eq_none_of_inner p 0 (y :: ys) l hnd
          (by rw [getSubtrees_cons_zero]; exact h) hm
      rw [indentNode_notFound hnone, List.map_cons,
        indentNode_localized p y.children l i x prev hndc h hx hid hi hprev,
        setSubtrees_cons_zero,
        ← indentNode_notFound (findIdx?_id_eq_none hnys),
        indentNode_of_not_mem hnys]
  | (j + 1) :: p, y :: ys, l, i, x, prev, hnd, h, hx, hid, hi, hprev => by
      rw [getSubtrees_cons_succ] at h
      obtain ⟨hyc, hyt, hndc, hndt, hdisj⟩ := noDupIds_cons.mp hnd
      have hm : nid ∈ idsOf l := by
        have := id_mem_idsOf_of_mem (List.getElem?_mem hx)
        rwa [hid] at this
      have hsub : nid ∈ idsOf ys := idsOf_getSubtrees_subset (j :: p) _ l h nid hm
      have hnch : nid ∉ idsOf y.children := fun hh => hdisj nid hh hsub
      have hnone : (y :: ys).findIdx? (fun n => n.id == nid) = none :=
        findIdx?_id_eq_none_of_inner p (j + 1) (y :: ys) l hnd
          (by rw [getSubtrees_cons_succ]; exact h) hm
      have hnoneYs : ys.findIdx? (fun n => n.id == nid) = none :=
        findIdx?_id_eq_none_of_inner p j ys l hndt h hm
      rw [indentNode_notFound hnone, List.map_cons,
        indentNode_of_not_mem hnch, NoteNode.withChildren_children,
        setSubtrees_cons_succ,
        ← indentNode_notFound hnoneYs,
        indentNode_localized (j :: p) ys l i x prev hndt h hx hid hi hprev]
termination_by p f => (p.length, f.length)

/-- When the target has no previous sibling anywhere (in particular when it is
the first child at its level, or absent), `indentNode` leaves the forest
unchanged. -/
theorem indentNode_of_noPrevSib {nid : Nat} :
    ∀ {l}, noPrevSib nid l = true → indentNode nid l = l := by
  intro l
  induction l using forestInd with
  | hnil =>
    intro _
    rw [indentNode_notFound (by rw [List.findIdx?_nil]), List.map_nil]
  | hcons x xs ihc iht =>
    intro h
    rw [noPrevSib] at h
    simp only [Bool.and_eq_true, Bool.not_eq_true'] at h
    obtain ⟨⟨hany, hch⟩, hxs⟩ := h
    have hfxs : xs.findIdx? (fun n => n.id == nid) = none := by
      rw [List.findIdx?_eq_none_iff]
      intro z hz
      exact Bool.eq_false_iff.mpr (List.any_eq_false.mp hany z hz)
    by_cases hx : x.id = nid
    · have hfind : (x :: xs).findIdx? (fun n => n.id == nid) = some 0 := by
        rw [List.findIdx?_cons, if_pos (by simp [hx])]
      rw [indentNode_found_zero hfind, List.map_cons, ihc hch,
        NoteNode.withChildren_children, ← indentNode_notFound hfxs, iht hxs]
    · have hfind : (x :: xs).findIdx? (fun n => n.id == nid) = none := by
        rw [List.findIdx?_cons, if_neg (by simp [hx]), List.findIdx?_succ, hfxs]
        rfl
      rw [indentNode_notFound hfind, List.map_cons, ihc hch,
        NoteNode.withChildren_children, ← indentNode_notFound hfxs, iht hxs]

/-! ### Claim theorems -/

/-- C9: `insertAfter(afterNodeId, newNode)` (with globally unique ids): if the
forest does not contain `afterNodeId`, the operation returns the forest
unchanged (silent no-op); if it contains it — at index `i` of the sibling list
`l` reached by the child-index path `p` — the new node is inserted as the
immediate next sibling of that node at its depth, everything else unchanged. -/
theorem claim_C9_insertAfter (aid : Nat) (nn : NoteNode) (f : List NoteNode)
    (hnd : NoDupIds f) :
    (aid ∉ idsOf f → insertAfterNode aid nn f = f) ∧
    (∀ (p : List Nat) (l : List NoteNode) (i : Nat) (x : NoteNode),
      getSubtrees f p = some l → l[i]? = some x → x.id = aid →
      insertAfterNode aid nn f
        = setSubtrees f p (l.take (i + 1) ++ nn :: l.drop (i + 1))) :=
  ⟨fun h => insertAfterNode_of_not_mem nn h,
   fun p l i x h hx hid => insertAfterNode_localized nn p f l i x hnd h hx hid⟩

theorem claim_C9_insertAfter_witness :
    insertAfterNode 2 (NoteNode.mk 9 "n" [] none none none none none 5 5)
      [NoteNode.mk 1 "a" [NoteNode.mk 2 "b" [] none none none none none 0 0]
         none none none none none 0 0,
       NoteNode.mk 3 "c" [] none none none none none 0 0]
      = [NoteNode.mk 1 "a" [NoteNode.mk 2 "b" [] none none none none none 0 0,
           NoteNode.mk 9 "n" [] none none none none none 5 5]
           none none none none none 0 0,
         NoteNode.mk 3 "c" [] none none none none none 0 0] ∧
    insertAfterNode 7 (NoteNode.mk 9 "n" [] none none none none none 5 5)
      [NoteNode.mk 1 "a" [NoteNode.mk 2 "b" [] none none none none none 0 0]
         none none none none none 0 0,
       NoteNode.mk 3 "c" [] none none none none none 0 0]
      = [NoteNode.mk 1 "a" [NoteNode.mk 2 "b" [] none none none none none 0 0]
           none none none none none 0 0,
         NoteNode.mk 3 "c" [] none none none none none 0 0] := by
  have hnd : NoDupIds
      [NoteNode.mk 1 "a" [NoteNode.mk 2 "b" [] none none none none none 0 0]
         none none none none none 0 0,
       NoteNode.mk 3 "c" [] none none none none none 0 0] := by
    simp [NoDupIds, idsOf, subtreeForest_cons, NoteNode.id, NoteNode.children]
  constructor
  · rw [(claim_C9_insertAfter 2 _ _ hnd).2 [0]
      [NoteNode.mk 2 "b" [] none none none none none 0 0] 0
      (NoteNode.mk 2 "b" [] none none none none none 0 0)
      (by rw [getSubtrees_cons_zero, NoteNode.children, getSubtrees_nil]) rfl rfl]
    rw [setSubtrees_cons_zero, setSubtrees_nil]
    rfl
  · exact (claim_C9_insertAfter 7 _ _ hnd).1
      (by simp [idsOf, subtreeForest_cons, NoteNode.id, NoteNode.children])

/-- C3: `indent(nodeId)` (with globally unique ids): when the target — at
index `i > 0` of the sibling list `l` reached by path `p` — has a previous
sibling, it is moved (with its entire subtree) to become the last child of
that previous sibling, everything else unchanged; when the target has no
previous sibling at its level (`noPrevSib`, which also covers an absent id),
the forest is unchanged. -/
theorem claim_C3_indent (nid : Nat) (f : List NoteNode) (hnd : NoDupIds f) :
    (∀ (p : List Nat) (l : List NoteNode) (i : Nat) (x prev : NoteNode),
      getSubtrees f p = some l → l[i]? = some x → x.id = nid → 0 < i →
      l[i - 1]? = some prev →
      indentNode nid f = setSubtrees f p
        (l.take (i - 1)
          ++ (prev.withChildren (prev.children ++ [x.withParentId (some prev.id)]))
          :: l.drop (i + 1))) ∧
    (noPrevSib nid f = true → indentNode nid f = f) :=
  ⟨fun p l i x prev h hx hid hi hprev =>
      indentNode_localized p f l i x prev hnd h hx hid hi hprev,
   fun h => indentNode_of_noPrevSib h⟩

theorem claim_C3_indent_witness :
    indentNode 2
      [NoteNode.mk 1 "foo" [NoteNode.mk 4 "x" [] none none none none none 0 0]
         none none none none none 0 0,
       NoteNode.mk 2 "bar" [] none none none none none 0 0]
      = [NoteNode.mk 1 "foo"
           [NoteNode.mk 4 "x" [] none none none none none 0 0,
            NoteNode.mk 2 "bar" [] (some 1) none none none none 0 0]
           none none none none none 0 0] ∧
    indentNode 1
      [NoteNode.mk 1 "foo" [NoteNode.mk 4 "x" [] none none none none none 0 0]
         none none none none none 0 0,
       NoteNode.mk 2 "bar" [] none none none none none 0 0]
      = [NoteNode.mk 1 "foo" [NoteNode.mk 4 "x" [] none none none none none 0 0]
           none none none none none 0 0,
         NoteNode.mk 2 "bar" [] none none none none none 0 0] := by
  have hnd : NoDupIds
      [NoteNode.mk 1 "foo" [NoteNode.mk 4 "x" [] none none none none none 0 0]
         none none none none none 0 0,
       NoteNode.mk 2 "bar" [] none none none none none 0 0] := by
    simp [NoDupIds, idsOf, subtreeForest_cons, NoteNode.id, NoteNode.children]
  constructor
  · rw [(claim_C3_indent 2 _ hnd).1 []
      [NoteNode.mk 1 "foo" [NoteNode.mk 4 "x" [] none none none none none 0 0]
         none none none none none 0 0,
       NoteNode.mk 2 "bar" [] none none none none none 0 0] 1
      (NoteNode.mk 2 "bar" [] none none none none none 0 0)
      (NoteNode.mk 1 "foo" [NoteNode.mk 4 "x" [] none none none none none 0 0]
         none none none none none 0 0)
      (getSubtrees_nil _) rfl rfl (by omega) rfl]
    rw [setSubtrees_nil]
    rfl
  · exact (claim_C3_indent 1 _ hnd).2 (by simp [noPrevSib, NoteNode.id, NoteNode.children])

theorem findNodeById_unique : ∀ {l : List NoteNode}, NoDupIds l →
    ∀ {y : NoteNode}, y ∈ subtreeForest l → findNodeById l y.id = some y := by
  intro l
  induction l using forestInd with
  | hnil => intro _ y h; simp at h
  | hcons x xs ihc iht =>
    intro hnd y h
    obtain ⟨hxc, hxt, hndc, hndt, hdisj⟩ := noDupIds_cons.mp hnd
    rw [subtreeForest_cons] at h
    rw [findNodeById_cons]
    rcases List.mem_cons.mp h with h | h
    · subst h
      rw [if_pos rfl]
    · rcases List.mem_append.mp h with h | h
      · have hy : y.id ∈ idsOf x.children := (subtreeForest_facts h).1
        rw [if_neg (fun hh => hxc (show x.id ∈ idsOf x.children by
          rw [hh]; exact hy)), ihc hndc h]
      · have hy : y.id ∈ idsOf xs := (subtreeForest_facts h).1
        rw [if_neg (fun hh => hxt (show x.id ∈ idsOf xs by rw [hh]; exact hy)),
          findNodeById_eq_none (fun hh => hdisj _ hh hy)]
        exact iht hndt h

theorem mem_subtreeForest_getSubtrees : ∀ (p : List Nat) (f l : List NoteNode),
    getSubtrees f p = some l → ∀ z ∈ subtreeForest l, z ∈ subtreeForest f
  | [], f, l, h => by
      rw [getSubtrees_nil, Option.some_inj] at h
      subst h
      exact fun z hz => hz
  | _ :: _, [], l, h => by rw [getSubtrees_nil_list] at h; cases h
  | 0 :: p, x :: xs, l, h => by
      rw [getSubtrees_cons_zero] at h
      intro z hz
      rw [subtreeForest_cons]
      exact List.mem_cons_of_mem _ (List.mem_append_left _
        (mem_subtreeForest_getSubtrees p x.children l h z hz))
  | (i + 1) :: p, x :: xs, l, h => by
      rw [getSubtrees_cons_succ] at h
      intro z hz
      rw [subtreeForest_cons]
      exact List.mem_cons_of_mem _ (List.mem_append_right _
        (mem_subtreeForest_getSubtrees (i :: p) xs l h z hz))
termination_by p f => (p.length, f.length)

theorem idsOf_mapAtId {tid : Nat} {g : NoteNode → NoteNode}
    (hid : ∀ n, (g n).id = n.id)
    (hch : ∀ n, idsOf (g n).children = idsOf n.children) :
    ∀ l, idsOf (mapAtId tid g l) = idsOf l := by
  intro l
  induction l using forestInd with
  | hnil => rw [mapAtId_nil]
  | hcons x xs ihc iht =>
    rw [mapAtId_cons, idsOf_cons, idsOf_cons]
    by_cases h : x.id = tid
    · rw [if_pos h, hid, hch, iht]
    · rw [if_neg h, NoteNode.id_withChildren, NoteNode.children_withChildren, ihc, iht]

/-- `mapAtId` at a top-level occurrence (with unique ids) rewrites exactly that
element and the rest of the list stays put. -/
theorem mapAtId_top {tid : Nat} {g : NoteNode → NoteNode} :
    ∀ {l : List NoteNode} {i : Nat} {x : NoteNode}, NoDupIds l →
      l[i]? = some x → x.id = tid →
      mapAtId tid g l = l.take i ++ g x :: l.drop (i + 1) := by
  intro l
  induction l with
  | nil => intro i x _ hx; simp at hx
  | cons y ys ih =>
    intro i x hnd hx hid
    obtain ⟨hyc, hyt, hndc, hndt, hdisj⟩ := noDupIds_cons.mp hnd
    cases i with
    | zero =>
      rw [List.getElem?_cons_zero, Option.some_inj] at hx
      subst hx
      rw [mapAtId_cons, if_pos hid, mapAtId_of_not_mem (hid ▸ hyt),
        List.take_zero, List.drop_succ_cons, List.drop_zero, List.nil_append]
    | succ i =>
      rw [List.getElem?_cons_succ] at hx
      have hmem : tid ∈ idsOf ys := hid ▸ id_mem_idsOf_of_mem (List.getElem?_mem hx)
      rw [mapAtId_cons, if_neg (fun hh => hyt (show y.id ∈ idsOf ys by
        rw [hh]; exact hmem)),
        mapAtId_of_not_mem (fun hh => hdisj _ hh hmem),
        NoteNode.withChildren_children, ih hndt hx hid,
        List.take_succ_cons, List.drop_succ_cons, List.cons_append]

theorem take_append_cons {α} : ∀ (A : List α) (b : α) (C : List α),
    (A ++ b :: C).take (A.length + 1) = A ++ [b]
  | [], b, C => rfl
  | a :: A, b, C => by
      rw [List.cons_append, List.length_cons, List.take_succ_cons,
        take_append_cons A b C, List.cons_append]

theorem drop_append_cons {α} : ∀ (A : List α) (b : α) (C : List α),
    (A ++ b :: C).drop (A.length + 1) = C
  | [], b, C => rfl
  | a :: A, b, C => by
      rw [List.cons_append, List.length_cons, List.drop_succ_cons,
        drop_append_cons A b C]

theorem idsOf_getSubtrees_sublist : ∀ (p : List Nat) (f l : List NoteNode),
    getSubtrees f p = some l → (idsOf l).Sublist (idsOf f)
  | [], f, l, h => by
      rw [getSubtrees_nil, Option.some_inj] at h
      subst h
      exact List.Sublist.refl _
  | _ :: _, [], l, h => by rw [getSubtrees_nil_list] at h; cases h
  | 0 :: p, x :: xs, l, h => by
      rw [getSubtrees_cons_zero] at h
      rw [idsOf_cons]
      exact ((idsOf_getSubtrees_sublist p x.children l h).trans
        (List.sublist_append_left _ _)).cons _
  | (i + 1) :: p, x :: xs, l, h => by
      rw [getSubtrees_cons_succ] at h
      rw [idsOf_cons]
      exact ((idsOf_getSubtrees_sublist (i :: p) xs l h).trans
        (List.sublist_append_right _ _)).cons _
termination_by p f => (p.length, f.length)

theorem NoDupIds_getSubtrees {p : List Nat} {f l : List NoteNode}
    (h : getSubtrees f p = some l) (hnd : NoDupIds f) : NoDupIds l :=
  List.Nodup.sublist (idsOf_getSubtrees_sublist p f l h) hnd

theorem getElem?_append_cons {α} : ∀ (A : List α) (b : α) (C : List α),
    (A ++ b :: C)[A.length]? = some b
  | [], b, C => by simp
  | a :: A, b, C => by
      rw [List.cons_append, List.length_cons, List.getElem?_cons_succ]
      exact getElem?_append_cons A b C

/-- C2: `splitAtOffset(nodeId, k)` (with globally unique ids): the node — at
index `i` of the sibling list `l` reached by path `p` — keeps the head
(characters before `k`) of its content and its children, while the tail moves
into a freshly created node (fresh id, fresh timestamps, no children)
inserted as its immediate next sibling at the same level; everything else
unchanged. -/
theorem claim_C2_split (nid k fid now : Nat) (f : List NoteNode)
    (hnd : NoDupIds f) :
    ∀ (p : List Nat) (l : List NoteNode) (i : Nat) (x : NoteNode),
      getSubtrees f p = some l → l[i]? = some x → x.id = nid →
      k ≤ x.content.length →
      splitAtOffset nid k fid now f = setSubtrees f p
        (l.take i
          ++ x.withContentStamp (x.content.take k) now
          :: NoteNode.mk fid (x.content.drop k) [] none none none none none now now
          :: l.drop (i + 1)) := by
  intro p l i x hgs hxi hid hk
  have hxmem : x ∈ subtreeForest f :=
    mem_subtreeForest_getSubtrees p f l hgs x
      (mem_subtreeForest_of_mem (List.getElem?_mem hxi))
  have hfind : findNodeById f nid = some x := by
    have := findNodeById_unique hnd hxmem
    rwa [hid] at this
  have hndl : NoDupIds l := NoDupIds_getSubtrees hgs hnd
  have hm : nid ∈ idsOf l := by
    have := id_mem_idsOf_of_mem (List.getElem?_mem hxi)
    rwa [hid] at this
  have hil : i < l.length := by
    by_contra hc
    rw [List.getElem?_eq_none (by omega)] at hxi
    cases hxi
  have hlen : (l.take i).length = i := by
    rw [List.length_take]
    omega
  have hupd : updateNodeContent nid (x.content.take k) now f
      = setSubtrees f p
          (mapAtId nid (fun n => n.withContentStamp (x.content.take k) now) l) := by
    rw [updateNodeContent_mapAtId, mapAtId_localized p f l hnd hgs hm]
  have hM : mapAtId nid (fun n => n.withContentStamp (x.content.take k) now) l
      = l.take i ++ x.withContentStamp (x.content.take k) now :: l.drop (i + 1) :=
    mapAtId_top hndl hxi hid
  have hidsM : idsOf (mapAtId nid
      (fun n => n.withContentStamp (x.content.take k) now) l) = idsOf l :=
    idsOf_mapAtId (fun n => by simp) (fun n => by simp) l
  have hnd1 : NoDupIds (setSubtrees f p
      (mapAtId nid (fun n => n.withContentStamp (x.content.take k) now) l)) := by
    unfold NoDupIds
    rw [idsOf_setSubtrees p f l _ hgs hidsM]
    exact hnd
  have hgs1 := getSubtrees_setSubtrees p f l
    (mapAtId nid (fun n => n.withContentStamp (x.content.take k) now) l) hgs
  have hMi : (mapAtId nid (fun n => n.withContentStamp (x.content.take k) now) l)[i]?
      = some (x.withContentStamp (x.content.take k) now) := by
    rw [hM]
    have := getElem?_append_cons (l.take i)
      (x.withContentStamp (x.content.take k) now) (l.drop (i + 1))
    rwa [hlen] at this
  have hins := @insertAfterNode_localized nid
    (NoteNode.mk fid (x.content.drop k) [] none none none none none now now) p
    (setSubtrees f p (mapAtId nid (fun n => n.withContentStamp (x.content.take k) now) l))
    (mapAtId nid (fun n => n.withContentStamp (x.content.take k) now) l) i
    (x.withContentStamp (x.content.take k) now) hnd1 hgs1 hMi (by simp [hid])
  have htake : (mapAtId nid (fun n => n.withContentStamp (x.content.take k) now) l).take (i + 1)
      = l.take i ++ [x.withContentStamp (x.content.take k) now] := by
    rw [hM]
    have := take_append_cons (l.take i)
      (x.withContentStamp (x.content.take k) now) (l.drop (i + 1))
    rwa [hlen] at this
  have hdrop : (mapAtId nid (fun n => n.withContentStamp (x.content.take k) now) l).drop (i + 1)
      = l.drop (i + 1) := by
    rw [hM]
    have := drop_append_cons (l.take i)
      (x.withContentStamp (x.content.take k) now) (l.drop (i + 1))
    rwa [hlen] at this
  rw [splitAtOffset, hfind]
  simp only [Option.map_some', Option.getD_some]
  rw [hupd, hins, setSubtrees_setSubtrees p f l _ _ hgs, htake, hdrop,
    List.append_assoc, List.singleton_append]

theorem claim_C2_split_witness :
    splitAtOffset 1 2 2 7 [NoteNode.mk 1 "hello" [] none none none none none 0 0]
      = [NoteNode.mk 1 "he" [] none none none none none 0 7,
         NoteNode.mk 2 "llo" [] none none none none none 7 7] := by
  rw [claim_C2_split 1 2 2 7 [NoteNode.mk 1 "hello" [] none none none none none 0 0]
    (by simp [NoDupIds, idsOf, subtreeForest_cons, NoteNode.id, NoteNode.children])
    [] [NoteNode.mk 1 "hello" [] none none none none none 0 0] 0
    (NoteNode.mk 1 "hello" [] none none none none none 0 0)
    (getSubtrees_nil _) rfl rfl (by decide), setSubtrees_nil]
  rfl

/-! Toolkit for `removeNodeFrom` / `outdentNode`. -/

theorem eq_take_cons_drop {α} : ∀ {l : List α} {i : Nat} {x : α},
    l[i]? = some x → l = l.take i ++ x :: l.drop (i + 1) := by
  intro l
  induction l with
  | nil => intro i x h; simp at h
  | cons y ys ih =>
    intro i x h
    cases i with
    | zero =>
      rw [List.getElem?_cons_zero, Option.some_inj] at h
      subst h
      rw [List.take_zero, List.drop_succ_cons, List.drop_zero, List.nil_append]
    | succ i =>
      rw [List.getElem?_cons_succ] at h
      rw [List.take_succ_cons, List.drop_succ_cons, List.cons_append]
      exact congrArg _ (ih h)

theorem drop_eq_cons_drop {α} : ∀ {l : List α} {i : Nat} {x : α},
    l[i]? = some x → l.drop i = x :: l.drop (i + 1) := by
  intro l
  induction l with
  | nil => intro i x h; simp at h
  | cons y ys ih =>
    intro i x h
    cases i with
    | zero =>
      rw [List.getElem?_cons_zero, Option.some_inj] at h
      subst h
      rw [List.drop_zero, List.drop_succ_cons, List.drop_zero]
    | succ i =>
      rw [List.getElem?_cons_succ] at h
      rw [List.drop_succ_cons, List.drop_succ_cons]
      exact ih h

theorem mem_subtreeForest_trans : ∀ {l : List NoteNode} {P z : NoteNode},
    P ∈ l → z ∈ subtreeForest P.children → z ∈ subtreeForest l := by
  intro l
  induction l with
  | nil => intro P z h; cases h
  | cons y ys ih =>
    intro P z hP hz
    rw [subtreeForest_cons]
    rcases List.mem_cons.mp hP with h | h
    · subst h
      exact List.mem_cons_of_mem _ (List.mem_append_left _ hz)
    · exact List.mem_cons_of_mem _ (List.mem_append_right _ (ih h hz))

theorem getSubtrees_append_index : ∀ (p : List Nat) (f lP : List NoteNode)
    (j : Nat) (P : NoteNode), getSubtrees f p = some lP → lP[j]? = some P →
    getSubtrees f (p ++ [j]) = some P.children
  | [], f, lP, j, P, h, hj => by
      rw [getSubtrees_nil, Option.some_inj] at h
      subst h
      rw [List.nil_append, getSubtrees, hj]
      rfl
  | _ :: _, [], lP, j, P, h, _ => by rw [getSubtrees_nil_list] at h; cases h
  | 0 :: p, x :: xs, lP, j, P, h, hj => by
      rw [getSubtrees_cons_zero] at h
      rw [List.cons_append, getSubtrees_cons_zero]
      exact getSubtrees_append_index p x.children lP j P h hj
  | (i + 1) :: p, x :: xs, lP, j, P, h, hj => by
      rw [getSubtrees_cons_succ] at h
      rw [List.cons_append, getSubtrees_cons_succ]
      exact getSubtrees_append_index (i :: p) xs lP j P h hj
termination_by p f => (p.length, f.length)

theorem findIdx?_id_eq_none_of_path {aid : Nat} {p : List Nat}
    {f l : List NoteNode} (hnd : NoDupIds f) (hp : p ≠ [])
    (h : getSubtrees f p = some l) (hm : aid ∈ idsOf l) :
    f.findIdx? (fun n => n.id == aid) = none := by
  match p, hp with
  | i :: q, _ => exact findIdx?_id_eq_none_of_inner q i f l hnd h hm

theorem removeNodeFrom_nil (nid : Nat) (pid : Option Nat) :
    removeNodeFrom nid [] pid = ([], none, pid) := by
  rw [removeNodeFrom]

theorem removeNodeFrom_cons (nid : Nat) (n : NoteNode) (rest : List NoteNode)
    (pid : Option Nat) :
    removeNodeFrom nid (n :: rest) pid =
      if n.id = nid then (rest, some n, pid)
      else
        match removeNodeFrom nid n.children (some n.id) with
        | (newChildren, some removed, childPid) =>
            (n.withChildren newChildren :: rest, some removed, childPid)
        | (_, none, _) =>
            match removeNodeFrom nid rest pid with
            | (rest', removed, pid') => (n :: rest', removed, pid') := by
  rw [removeNodeFrom]

theorem removeNodeFrom_of_not_mem {nid : Nat} :
    ∀ {l : List NoteNode}, nid ∉ idsOf l →
      ∀ pid, removeNodeFrom nid l pid = (l, none, pid) := by
  intro l
  induction l using forestInd with
  | hnil => intro _ pid; rw [removeNodeFrom_nil]
  | hcons x xs ihc iht =>
    intro h pid
    rw [mem_idsOf_cons] at h
    push_neg at h
    obtain ⟨h1, h2, h3⟩ := h
    rw [removeNodeFrom_cons, if_neg (fun hh => h1 hh.symm), ihc h2, iht h3]

theorem removeNodeFrom_top {nid : Nat} :
    ∀ {l : List NoteNode} {i : Nat} {x : NoteNode} (pid : Option Nat),
      NoDupIds l → l[i]? = some x → x.id = nid →
      removeNodeFrom nid l pid = (l.take i ++ l.drop (i + 1), some x, pid) := by
  intro l
  induction l with
  | nil => intro i x pid _ hx; simp at hx
  | cons y ys ih =>
    intro i x pid hnd hx hid
    obtain ⟨hyc, hyt, hndc, hndt, hdisj⟩ := noDupIds_cons.mp hnd
    cases i with
    | zero =>
      rw [List.getElem?_cons_zero, Option.some_inj] at hx
      subst hx
      rw [removeNodeFrom_cons, if_pos hid, List.take_zero, List.drop_succ_cons,
        List.drop_zero, List.nil_append]
    | succ i =>
      rw [List.getElem?_cons_succ] at hx
      have hmem : nid ∈ idsOf ys := hid ▸ id_mem_idsOf_of_mem (List.getElem?_mem hx)
      rw [removeNodeFrom_cons,
        if_neg (fun hh => hyt (show y.id ∈ idsOf ys by rw [hh]; exact hmem)),
        removeNodeFrom_of_not_mem (fun hh => hdisj _ hh hmem) (some y.id),
        ih pid hndt hx hid, List.take_succ_cons, List.drop_succ_cons, List.cons_append]

theorem removeNodeFrom_childTop {nid : Nat} :
    ∀ {l : List NoteNode} {j i : Nat} {P x : NoteNode} (pid : Option Nat),
      NoDupIds l → l[j]? = some P → P.children[i]? = some x → x.id = nid →
      removeNodeFrom nid l pid
        = (l.take j
            ++ P.withChildren (P.children.take i ++ P.children.drop (i + 1))
            :: l.drop (j + 1), some x, some P.id) := by
  intro l
  induction l with
  | nil => intro j i P x pid _ hP; simp at hP
  | cons y ys ih =>
    intro j i P x pid hnd hP hx hid
    obtain ⟨hyc, hyt, hndc, hndt, hdisj⟩ := noDupIds_cons.mp hnd
    cases j with
    | zero =>
      rw [List.getElem?_cons_zero, Option.some_inj] at hP
      subst hP
      have hmemc : nid ∈ idsOf y.children :=
        hid ▸ id_mem_idsOf_of_mem (List.getElem?_mem hx)
      rw [removeNodeFrom_cons,
        if_neg (fun hh => hyc (show y.id ∈ idsOf y.children by rw [hh]; exact hmemc)),
        removeNodeFrom_top (some y.id) hndc hx hid,
        List.take_zero, List.drop_succ_cons, List.drop_zero, List.nil_append]
    | succ j =>
      rw [List.getElem?_cons_succ] at hP
      have hmem : nid ∈ idsOf ys := by
        have hxm : x ∈ subtreeForest ys :=
          mem_subtreeForest_trans (List.getElem?_mem hP)
            (mem_subtreeForest_of_mem (List.getElem?_mem hx))
        exact hid ▸ (subtreeForest_facts hxm).1
      rw [removeNodeFrom_cons,
        if_neg (fun hh => hyt (show y.id ∈ idsOf ys by rw [hh]; exact hmem)),
        removeNodeFrom_of_not_mem (fun hh => hdisj _ hh hmem) (some y.id),
        ih pid hndt hP hx hid, List.take_succ_cons, List.drop_succ_cons,
        List.cons_append]

theorem removeNodeFrom_localized {nid : Nat} :
    ∀ (p : List Nat) (f lP : List NoteNode) (j i : Nat) (P x : NoteNode)
      (pid : Option Nat),
      NoDupIds f → getSubtrees f p = some lP → lP[j]? = some P →
      P.children[i]? = some x → x.id = nid →
      removeNodeFrom nid f pid
        = (setSubtrees f p
            (lP.take j
              ++ P.withChildren (P.children.take i ++ P.children.drop (i + 1))
              :: lP.drop (j + 1)), some x, some P.id)
  | [], f, lP, j, i, P, x, pid, hnd, hgs, hP, hx, hid => by
      rw [getSubtrees_nil, Option.some_inj] at hgs
      subst hgs
      rw [setSubtrees_nil]
      exact removeNodeFrom_childTop pid hnd hP hx hid
  | _ :: _, [], lP, j, i, P, x, pid, hnd, hgs, hP, hx, hid => by
      rw [getSubtrees_nil_list] at hgs; cases hgs
  | 0 :: p, y :: ys, lP, j, i, P, x, pid, hnd, hgs, hP, hx, hid => by
      rw [getSubtrees_cons_zero] at hgs
      obtain ⟨hyc, hyt, hndc, hndt, hdisj⟩ := noDupIds_cons.mp hnd
      have hxm : x ∈ subtreeForest lP :=
        mem_subtreeForest_trans (List.getElem?_mem hP)
          (mem_subtreeForest_of_mem (List.getElem?_mem hx))
      have hm : nid ∈ idsOf lP := hid ▸ (subtreeForest_facts hxm).1
      have hsub : nid ∈ idsOf y.children := idsOf_getSubtrees_subset p _ lP hgs nid hm
      rw [removeNodeFrom_cons,
        if_neg (fun hh => hyc (show y.id ∈ idsOf y.children by rw [hh]; exact hsub)),
        removeNodeFrom_localized p y.children lP j i P x (some y.id) hndc hgs hP hx hid,
        setSubtrees_cons_zero]
  | (q + 1) :: p, y :: ys, lP, j, i, P, x, pid, hnd, hgs, hP, hx, hid => by
      rw [getSubtrees_cons_succ] at hgs
      obtain ⟨hyc, hyt, hndc, hndt, hdisj⟩ := noDupIds_cons.mp hnd
      have hxm : x ∈ subtreeForest lP :=
        mem_subtreeForest_trans (List.getElem?_mem hP)
          (mem_subtreeForest_of_mem (List.getElem?_mem hx))
      have hm : nid ∈ idsOf lP := hid ▸ (subtreeForest_facts hxm).1
      have hsub : nid ∈ idsOf ys := idsOf_getSubtrees_subset (q :: p) _ lP hgs nid hm
      rw [removeNodeFrom_cons,
        if_neg (fun hh => hyt (show y.id ∈ idsOf ys by rw [hh]; exact hsub)),
        removeNodeFrom_of_not_mem (fun hh => hdisj _ hh hsub) (some y.id),
        removeNodeFrom_localized (q :: p) ys lP j i P x pid hndt hgs hP hx hid,
        setSubtrees_cons_succ]
termination_by p f => (p.length, f.length)

/-- The forest after `removeNode` erases the target from its parent's child
list; its id list only shrinks, so unique ids are preserved. -/
theorem erase_splice_ids_sublist {lP : List NoteNode} {j i : Nat} {P x : NoteNode}
    (hP : lP[j]? = some P) (hx : P.children[i]? = some x) :
    (idsOf (lP.take j
        ++ P.withChildren (P.children.take i ++ P.children.drop (i + 1))
        :: lP.drop (j + 1))).Sublist (idsOf lP) := by
  have hdecomp := eq_take_cons_drop hP
  have hcdecomp := eq_take_cons_drop hx
  rw [idsOf_append, idsOf_cons, NoteNode.id_withChildren,
    NoteNode.children_withChildren, idsOf_append]
  conv_rhs => rw [hdecomp, idsOf_append, idsOf_cons]
  conv_rhs => rw [hcdecomp, idsOf_append, idsOf_cons]
  refine (List.append_sublist_append_left _).mpr ?_
  refine List.Sublist.cons₂ _ ?_
  refine (List.append_sublist_append_right _).mpr ?_
  refine (List.append_sublist_append_left _).mpr ?_
  exact (List.sublist_append_right _ _).cons _

/-- Localization of `outdentNode`: the target leaves its parent's child list
(subsequent siblings staying behind) and re-enters the parent's sibling list
immediately after the parent, with its `parentId` re-pointed at what
`findParentId` reports on the updated forest. -/
theorem outdentNode_localized {nid : Nat}
    (p : List Nat) (f lP : List NoteNode) (j i : Nat) (P x : NoteNode)
    (hnd : NoDupIds f) (hgs : getSubtrees f p = some lP) (hP : lP[j]? = some P)
    (hx : P.children[i]? = some x) (hid : x.id = nid) :
    outdentNode nid f = setSubtrees f p
      (lP.take j
        ++ P.withChildren (P.children.take i ++ P.children.drop (i + 1))
        :: x.withParentId (findParentId
            (setSubtrees f p (lP.take j
              ++ P.withChildren (P.children.take i ++ P.children.drop (i + 1))
              :: lP.drop (j + 1))) P.id none)
        :: lP.drop (j + 1)) := by
  have hjl : j < lP.length := by
    by_contra hc
    rw [List.getElem?_eq_none (by omega)] at hP
    cases hP
  have hlenj : (lP.take j).length = j := by
    rw [List.length_take]
    omega
  have hgsc : getSubtrees f (p ++ [j]) = some P.children :=
    getSubtrees_append_index p f lP j P hgs hP
  have hmc : nid ∈ idsOf P.children := by
    have := id_mem_idsOf_of_mem (List.getElem?_mem hx)
    rwa [hid] at this
  have hfnone : f.findIdx? (fun n => n.id == nid) = none :=
    findIdx?_id_eq_none_of_path hnd (by simp) hgsc hmc
  have hany : f.any (fun n => n.id == nid) = false := by
    rw [List.any_eq_false]
    intro z hz
    have hzf := List.findIdx?_eq_none_iff.mp hfnone z hz
    simp [hzf]
  have hrem := removeNodeFrom_localized p f lP j i P x none hnd hgs hP hx hid
  rw [outdentNode, if_neg (by simp [hany]), hrem]
  dsimp only
  have hsplids : (idsOf (lP.take j
      ++ P.withChildren (P.children.take i ++ P.children.drop (i + 1))
      :: lP.drop (j + 1))).Sublist (idsOf lP) := erase_splice_ids_sublist hP hx
  have hnd2 : NoDupIds (setSubtrees f p (lP.take j
      ++ P.withChildren (P.children.take i ++ P.children.drop (i + 1))
      :: lP.drop (j + 1))) :=
    List.Nodup.sublist (idsOf_setSubtrees_sublist p f lP _ hgs hsplids) hnd
  have hgs2 := getSubtrees_setSubtrees p f lP
    (lP.take j
      ++ P.withChildren (P.children.take i ++ P.children.drop (i + 1))
      :: lP.drop (j + 1)) hgs
  have hPj : (lP.take j
      ++ P.withChildren (P.children.take i ++ P.children.drop (i + 1))
      :: lP.drop (j + 1))[j]?
      = some (P.withChildren (P.children.take i ++ P.children.drop (i + 1))) := by
    have := getElem?_append_cons (lP.take j)
      (P.withChildren (P.children.take i ++ P.children.drop (i + 1)))
      (lP.drop (j + 1))
    rwa [hlenj] at this
  have hins := @insertAfterNode_localized P.id
    (x.withParentId (findParentId
      (setSubtrees f p (lP.take j
        ++ P.withChildren (P.children.take i ++ P.children.drop (i + 1))
        :: lP.drop (j + 1))) P.id none)) p
    (setSubtrees f p (lP.take j
      ++ P.withChildren (P.children.take i ++ P.children.drop (i + 1))
      :: lP.drop (j + 1)))
    (lP.take j
      ++ P.withChildren (P.children.take i ++ P.children.drop (i + 1))
      :: lP.drop (j + 1)) j
    (P.withChildren (P.children.take i ++ P.children.drop (i + 1)))
    hnd2 hgs2 hPj (by simp)
  rw [hins]
  have htake : (lP.take j
      ++ P.withChildren (P.children.take i ++ P.children.drop (i + 1))
      :: lP.drop (j + 1)).take (j + 1)
      = lP.take j ++ [P.withChildren (P.children.take i ++ P.children.drop (i + 1))] := by
    have := take_append_cons (lP.take j)
      (P.withChildren (P.children.take i ++ P.children.drop (i + 1)))
      (lP.drop (j + 1))
    rwa [hlenj] at this
  have hdrop : (lP.take j
      ++ P.withChildren (P.children.take i ++ P.children.drop (i + 1))
      :: lP.drop (j + 1)).drop (j + 1) = lP.drop (j + 1) := by
    have := drop_append_cons (lP.take j)
      (P.withChildren (P.children.take i ++ P.children.drop (i + 1)))
      (lP.drop (j + 1))
    rwa [hlenj] at this
  rw [htake, hdrop, setSubtrees_setSubtrees p f lP _ _ hgs, List.append_assoc,
    List.singleton_append]

/-- C4: `outdent(nodeId)` (with globally unique ids): when the target — at
index `i` of the children of parent `P`, itself at index `j` of the sibling
list reached by path `p` — has a parent, it is removed from the parent's
children (subsequent siblings do not move) and reinserted, with its own
children, as the sibling immediately after its former parent at the parent's
level; when the target is a root node the forest is unchanged. -/
theorem claim_C4_outdent (nid : Nat) (f : List NoteNode) (hnd : NoDupIds f) :
    (∀ (p : List Nat) (lP : List NoteNode) (j i : Nat) (P x : NoteNode),
      getSubtrees f p = some lP → lP[j]? = some P → P.children[i]? = some x →
      x.id = nid →
      outdentNode nid f = setSubtrees f p
        (lP.take j
          ++ P.withChildren (P.children.take i ++ P.children.drop (i + 1))
          :: x.withParentId (findParentId
              (setSubtrees f p (lP.take j
                ++ P.withChildren (P.children.take i ++ P.children.drop (i + 1))
                :: lP.drop (j + 1))) P.id none)
          :: lP.drop (j + 1))) ∧
    (nid ∈ f.map NoteNode.id → outdentNode nid f = f) := by
  constructor
  · intro p lP j i P x hgs hP hx hid
    exact outdentNode_localized p f lP j i P x hnd hgs hP hx hid
  · intro hmem
    obtain ⟨y, hy, hyid⟩ := List.mem_map.mp hmem
    rw [outdentNode, if_pos]
    rw [List.any_eq_true]
    exact ⟨y, hy, by simp [hyid]⟩

theorem claim_C4_outdent_witness :
    outdentNode 3
      [NoteNode.mk 1 "a" [NoteNode.mk 3 "x" [] (some 1) none none none none 0 0]
         none none none none none 0 0]
      = [NoteNode.mk 1 "a" [] none none none none none 0 0,
         NoteNode.mk 3 "x" [] none none none none none 0 0] ∧
    outdentNode 1
      [NoteNode.mk 1 "a" [NoteNode.mk 3 "x" [] (some 1) none none none none 0 0]
         none none none none none 0 0]
      = [NoteNode.mk 1 "a" [NoteNode.mk 3 "x" [] (some 1) none none none none 0 0]
         none none none none none 0 0] := by
  have hnd : NoDupIds
      [NoteNode.mk 1 "a" [NoteNode.mk 3 "x" [] (some 1) none none none none 0 0]
         none none none none none 0 0] := by
    simp [NoDupIds, idsOf, subtreeForest_cons, NoteNode.id, NoteNode.children]
  constructor
  · rw [(claim_C4_outdent 3 _ hnd).1 []
      [NoteNode.mk 1 "a" [NoteNode.mk 3 "x" [] (some 1) none none none none 0 0]
         none none none none none 0 0] 0 0
      (NoteNode.mk 1 "a" [NoteNode.mk 3 "x" [] (some 1) none none none none 0 0]
         none none none none none 0 0)
      (NoteNode.mk 3 "x" [] (some 1) none none none none 0 0)
      (getSubtrees_nil _) rfl rfl rfl]
    rw [setSubtrees_nil, setSubtrees_nil]
    rw [findParentId.eq_def]
    rfl
  · exact (claim_C4_outdent 1 _ hnd).2 (by simp [NoteNode.id])

namespace NoteNode

@[simp] theorem withChildren_withChildren (n : NoteNode) (u v : List NoteNode) :
    (n.withChildren u).withChildren v = n.withChildren v := by cases n; rfl

@[simp] theorem withParentId_withChildren (n : NoteNode) (u : List NoteNode)
    (q : Option Nat) :
    (n.withChildren u).withParentId q = (n.withParentId q).withChildren u := by
  cases n; rfl

@[simp] theorem withParentId_withParentId (n : NoteNode) (q r : Option Nat) :
    (n.withParentId q).withParentId r = n.withParentId r := by cases n; rfl

end NoteNode

theorem eraseParents_nil : eraseParents [] = [] := by rw [eraseParents]

theorem eraseParents_cons (x : NoteNode) (xs : List NoteNode) :
    eraseParents (x :: xs)
      = (x.withParentId none).withChildren (eraseParents x.children)
        :: eraseParents xs := by
  rw [eraseParents]

theorem eraseParents_append : ∀ (a b : List NoteNode),
    eraseParents (a ++ b) = eraseParents a ++ eraseParents b
  | [], b => by rw [eraseParents_nil, List.nil_append, List.nil_append]
  | x :: a, b => by
      rw [List.cons_append, eraseParents_cons, eraseParents_cons,
        eraseParents_append a b, List.cons_append]

theorem eraseParents_getElem? : ∀ (l : List NoteNode) (i : Nat),
    (eraseParents l)[i]?
      = (l[i]?).map (fun n => (n.withParentId none).withChildren (eraseParents n.children))
  | [], i => by rw [eraseParents_nil]; simp
  | x :: xs, 0 => by rw [eraseParents_cons]; simp
  | x :: xs, i + 1 => by
      rw [eraseParents_cons, List.getElem?_cons_succ, List.getElem?_cons_succ]
      exact eraseParents_getElem? xs i

theorem getSubtrees_eraseParents : ∀ (p : List Nat) (f l : List NoteNode),
    getSubtrees f p = some l →
      getSubtrees (eraseParents f) p = some (eraseParents l)
  | [], f, l, h => by
      rw [getSubtrees_nil, Option.some_inj] at h
      subst h
      rw [getSubtrees_nil]
  | _ :: _, [], l, h => by rw [getSubtrees_nil_list] at h; cases h
  | 0 :: p, x :: xs, l, h => by
      rw [getSubtrees_cons_zero] at h
      rw [eraseParents_cons, getSubtrees_cons_zero, NoteNode.children_withChildren]
      exact getSubtrees_eraseParents p x.children l h
  | (i + 1) :: p, x :: xs, l, h => by
      rw [getSubtrees_cons_succ] at h
      rw [eraseParents_cons, getSubtrees_cons_succ]
      exact getSubtrees_eraseParents (i :: p) xs l h
termination_by p f => (p.length, f.length)

theorem eraseParents_setSubtrees : ∀ (p : List Nat) (f l X : List NoteNode),
    getSubtrees f p = some l →
      eraseParents (setSubtrees f p X)
        = setSubtrees (eraseParents f) p (eraseParents X)
  | [], f, l, X, _ => by rw [setSubtrees_nil, setSubtrees_nil]
  | _ :: _, [], l, X, h => by rw [getSubtrees_nil_list] at h; cases h
  | 0 :: p, x :: xs, l, X, h => by
      rw [getSubtrees_cons_zero] at h
      rw [setSubtrees_cons_zero, eraseParents_cons, eraseParents_cons,
        setSubtrees_cons_zero]
      simp only [NoteNode.children_withChildren, NoteNode.withParentId_withChildren,
        NoteNode.withChildren_withChildren]
      rw [eraseParents_setSubtrees p x.children l X h]
  | (i + 1) :: p, x :: xs, l, X, h => by
      rw [getSubtrees_cons_succ] at h
      rw [setSubtrees_cons_succ, eraseParents_cons, eraseParents_cons,
        setSubtrees_cons_succ, eraseParents_setSubtrees (i :: p) xs l X h]
termination_by p f => (p.length, f.length)

/-- C5: with globally unique ids, for a node with a previous sibling,
`outdent` right after `indent` restores the original forest shape: the same
parent/child relations, sibling orders, contents and flags everywhere —
compared under `eraseParents`, since the only residue is the advisory
`parentId` bookkeeping field, which the spec's data model explicitly treats as
non-authoritative. -/
theorem claim_C5_indent_outdent (nid : Nat) (f : List NoteNode) (hnd : NoDupIds f) :
    ∀ (p : List Nat) (l : List NoteNode) (i : Nat) (x prev : NoteNode),
      getSubtrees f p = some l → l[i]? = some x → x.id = nid → 0 < i →
      l[i - 1]? = some prev →
      eraseParents (outdentNode nid (indentNode nid f)) = eraseParents f := by
  intro p l i x prev hgs hxi hid hi hprev
  have hisub : i - 1 + 1 = i := by omega
  have hil : i < l.length := by
    by_contra hc
    rw [List.getElem?_eq_none (by omega)] at hxi
    cases hxi
  have hlen1 : (l.take (i - 1)).length = i - 1 := by
    rw [List.length_take]
    omega
  have hdec : l = l.take (i - 1) ++ prev :: x :: l.drop (i + 1) := by
    have h1 := eq_take_cons_drop hprev
    rw [hisub] at h1
    rw [drop_eq_cons_drop hxi] at h1
    exact h1
  have hind := indentNode_localized p f l i x prev hnd hgs hxi hid hi hprev
  have hids : idsOf (l.take (i - 1)
      ++ (prev.withChildren
            (prev.children ++ [x.withParentId (some prev.id)]))
      :: l.drop (i + 1)) = idsOf l := by
    conv_rhs => rw [hdec]
    simp [idsOf_append, idsOf_cons, List.append_assoc]
  have hnd1 : NoDupIds (setSubtrees f p (l.take (i - 1)
      ++ (prev.withChildren
            (prev.children ++ [x.withParentId (some prev.id)]))
      :: l.drop (i + 1))) := by
    unfold NoDupIds
    rw [idsOf_setSubtrees p f l _ hgs hids]
    exact hnd
  have hgs1 := getSubtrees_setSubtrees p f l
    (l.take (i - 1)
      ++ (prev.withChildren
            (prev.children ++ [x.withParentId (some prev.id)]))
      :: l.drop (i + 1)) hgs
  have hP1 : (l.take (i - 1)
      ++ (prev.withChildren
            (prev.children ++ [x.withParentId (some prev.id)]))
      :: l.drop (i + 1))[i - 1]?
      = some (prev.withChildren
          (prev.children ++ [x.withParentId (some prev.id)])) := by
    have := getElem?_append_cons (l.take (i - 1))
      (prev.withChildren (prev.children ++ [x.withParentId (some prev.id)]))
      (l.drop (i + 1))
    rwa [hlen1] at this
  have hx1 : (prev.withChildren
      (prev.children ++ [x.withParentId (some prev.id)])).children[prev.children.length]?
      = some (x.withParentId (some prev.id)) := by
    rw [NoteNode.children_withChildren]
    exact getElem?_append_cons prev.children (x.withParentId (some prev.id)) []
  have houtd := @outdentNode_localized nid p
    (setSubtrees f p (l.take (i - 1)
      ++ (prev.withChildren
            (prev.children ++ [x.withParentId (some prev.id)]))
      :: l.drop (i + 1)))
    (l.take (i - 1)
      ++ (prev.withChildren
            (prev.children ++ [x.withParentId (some prev.id)]))
      :: l.drop (i + 1))
    (i - 1) prev.children.length
    (prev.withChildren (prev.children ++ [x.withParentId (some prev.id)]))
    (x.withParentId (some prev.id))
    hnd1 hgs1 hP1 hx1 (by simp [hid])
  rw [hind, houtd]
  have htake1 : (l.take (i - 1)
      ++ (prev.withChildren
            (prev.children ++ [x.withParentId (some prev.id)]))
      :: l.drop (i + 1)).take (i - 1) = l.take (i - 1) := by
    have := List.take_left (l.take (i - 1))
      ((prev.withChildren (prev.children ++ [x.withParentId (some prev.id)]))
        :: l.drop (i + 1))
    rwa [hlen1] at this
  have hdrop1 : (l.take (i - 1)
      ++ (prev.withChildren
            (prev.children ++ [x.withParentId (some prev.id)]))
      :: l.drop (i + 1)).drop (i - 1 + 1) = l.drop (i + 1) := by
    have := drop_append_cons (l.take (i - 1))
      (prev.withChildren (prev.children ++ [x.withParentId (some prev.id)]))
      (l.drop (i + 1))
    rwa [hlen1] at this
  have hctake : (prev.children ++ [x.withParentId (some prev.id)]).take
      prev.children.length = prev.children :=
    List.take_left _ _
  have hcdrop : (prev.children ++ [x.withParentId (some prev.id)]).drop
      (prev.children.length + 1) = [] :=
    drop_append_cons prev.children (x.withParentId (some prev.id)) []
  rw [setSubtrees_setSubtrees p f l _ _ hgs]
  rw [eraseParents_setSubtrees p f l _ hgs]
  conv_rhs => rw [← setSubtrees_getSubtrees p (eraseParents f) (eraseParents l)
    (getSubtrees_eraseParents p f l hgs)]
  congr 1
  rw [htake1, hdrop1]
  simp only [NoteNode.children_withChildren]
  rw [hctake, hcdrop, List.append_nil]
  conv_rhs => rw [hdec]
  simp [eraseParents_append, eraseParents_cons]

theorem claim_C5_indent_outdent_witness :
    eraseParents (outdentNode 2 (indentNode 2
      [NoteNode.mk 1 "foo" [NoteNode.mk 4 "x" [] none none none none none 0 0]
         none none none none none 0 0,
       NoteNode.mk 2 "bar" [] none none none none none 0 0]))
      = eraseParents
      [NoteNode.mk 1 "foo" [NoteNode.mk 4 "x" [] none none none none none 0 0]
         none none none none none 0 0,
       NoteNode.mk 2 "bar" [] none none none none none 0 0] :=
  claim_C5_indent_outdent 2 _
    (by simp [NoDupIds, idsOf, subtreeForest_cons, NoteNode.id, NoteNode.children])
    [] _ 1 (NoteNode.mk 2 "bar" [] none none none none none 0 0)
    (NoteNode.mk 1 "foo" [NoteNode.mk 4 "x" [] none none none none none 0 0]
       none none none none none 0 0)
    (getSubtrees_nil _) rfl rfl (by omega) rfl

/-! Frame reasoning for pointwise style/content maps. -/

/-- Every field of a node except its (recursively rebuilt) children list. -/
def nodeSig (n : NoteNode) :
    Nat × String × Option Nat × Option Bool × Option Bool × Option Style
      × Option Bool × Nat × Nat :=
  (n.id, n.content, n.parentId, n.isChecklist, n.checked, n.style, n.collapsed,
    n.createdAt, n.updatedAt)

/-- The ids of a node's direct children. -/
def childIds (n : NoteNode) : List Nat := n.children.map NoteNode.id

@[simp] theorem nodeSig_withChildren (n : NoteNode) (ch : List NoteNode) :
    nodeSig (n.withChildren ch) = nodeSig n := by cases n; rfl

theorem topIds_mapAtId {tid : Nat} {g : NoteNode → NoteNode}
    (hid : ∀ n, (g n).id = n.id) :
    ∀ l : List NoteNode, (mapAtId tid g l).map NoteNode.id = l.map NoteNode.id := by
  intro l
  induction l with
  | nil => rw [mapAtId_nil]
  | cons x xs ih =>
    rw [mapAtId_cons, List.map_cons, List.map_cons, ih]
    by_cases h : x.id = tid
    · rw [if_pos h, hid]
    · rw [if_neg h, NoteNode.id_withChildren]

theorem findNodeById_mapAtId_self {tid : Nat} {g : NoteNode → NoteNode}
    (hid : ∀ n, (g n).id = n.id) :
    ∀ l, findNodeById (mapAtId tid g l) tid = (findNodeById l tid).map g := by
  intro l
  induction l using forestInd with
  | hnil => rw [mapAtId_nil, findNodeById_nil]; rfl
  | hcons x xs ihc iht =>
    rw [mapAtId_cons]
    by_cases h : x.id = tid
    · rw [if_pos h, findNodeById_cons, findNodeById_cons,
        if_pos (show (g x).id = tid by rw [hid]; exact h), if_pos h]
      rfl
    · rw [if_neg h, findNodeById_cons, findNodeById_cons]
      simp only [NoteNode.id_withChildren, NoteNode.children_withChildren]
      rw [if_neg h, if_neg h, ihc]
      rcases hc : findNodeById x.children tid with _ | y
      · rw [Option.map_none']
        exact iht
      · rw [Option.map_some']

theorem findNodeById_mapAtId_other {tid : Nat} {g : NoteNode → NoteNode}
    (hid : ∀ n, (g n).id = n.id) (hch : ∀ n, (g n).children = n.children)
    {tid' : Nat} (hne : tid' ≠ tid) :
    ∀ l, ((findNodeById (mapAtId tid g l) tid').map nodeSig
            = (findNodeById l tid').map nodeSig)
      ∧ ((findNodeById (mapAtId tid g l) tid').map childIds
            = (findNodeById l tid').map childIds) := by
  intro l
  induction l using forestInd with
  | hnil => rw [mapAtId_nil]; exact ⟨rfl, rfl⟩
  | hcons x xs ihc iht =>
    rw [mapAtId_cons]
    by_cases h : x.id = tid
    · rw [if_pos h, findNodeById_cons, findNodeById_cons,
        if_neg (show ¬(g x).id = tid' by rw [hid, h]; exact fun hh => hne hh.symm),
        if_neg (show ¬x.id = tid' by rw [h]; exact fun hh => hne hh.symm), hch]
      rcases hc : findNodeById x.children tid' with _ | y
      · exact iht
      · exact ⟨rfl, rfl⟩
    · rw [if_neg h, findNodeById_cons, findNodeById_cons]
      simp only [NoteNode.id_withChildren, NoteNode.children_withChildren]
      by_cases h' : x.id = tid'
      · rw [if_pos h', if_pos h']
        refine ⟨?_, ?_⟩
        · rw [Option.map_some', Option.map_some', nodeSig_withChildren]
        · rw [Option.map_some', Option.map_some']
          simp only [childIds, NoteNode.children_withChildren, topIds_mapAtId hid]
      · rw [if_neg h', if_neg h']
        rcases hc : findNodeById x.children tid' with _ | y
        · have hm : findNodeById (mapAtId tid g x.children) tid' = none := by
            have h1 := ihc.1
            rw [hc] at h1
            exact Option.map_eq_none'.mp h1
          rw [hm]
          exact iht
        · have h1 := ihc.1
          have h2 := ihc.2
          rw [hc] at h1 h2
          obtain ⟨y', hy', hsig⟩ := Option.map_eq_some'.mp h1
          rw [hy'] at h2 ⊢
          rw [Option.map_some'] at h2
          exact ⟨by rw [Option.map_some', Option.map_some', hsig], h2⟩

/-- C10: the per-node font-size steps (with the node present): a missing
`style.size` reads as `base`; `incFont` saturates at `xl` and `decFont` at
`sm` (no wraparound, no error); and in all cases only the target node's
`style` (its `size` slot, other style flags kept) and `updatedAt` change —
every other node keeps all its fields and its child list. -/
theorem claim_C10_font (nid now : Nat) (f : List NoteNode) (x : NoteNode)
    (hfind : findNodeById f nid = some x) :
    (x.style.bind Style.size = some FontSize.xl →
      findNodeById (incFont nid now f) nid
        = some (x.withStyleStamp
            (some { x.style.getD {} with size := some FontSize.xl }) now))
    ∧ (x.style.bind Style.size = some FontSize.sm →
      findNodeById (decFont nid now f) nid
        = some (x.withStyleStamp
            (some { x.style.getD {} with size := some FontSize.sm }) now))
    ∧ (x.style.bind Style.size = none →
      (findNodeById (incFont nid now f) nid
        = some (x.withStyleStamp
            (some { x.style.getD {} with size := some FontSize.lg }) now))
      ∧ (findNodeById (decFont nid now f) nid
        = some (x.withStyleStamp
            (some { x.style.getD {} with size := some FontSize.sm }) now)))
    ∧ (∀ tid, tid ≠ nid →
        ((findNodeById (incFont nid now f) tid).map nodeSig
          = (findNodeById f tid).map nodeSig)
        ∧ ((findNodeById (incFont nid now f) tid).map childIds
          = (findNodeById f tid).map childIds)
        ∧ ((findNodeById (decFont nid now f) tid).map nodeSig
          = (findNodeById f tid).map nodeSig)
        ∧ ((findNodeById (decFont nid now f) tid).map childIds
          = (findNodeById f tid).map childIds)) := by
  have hfindSet : ∀ s : FontSize, findNodeById (setFontSize nid s now f) nid
      = some (x.withStyleStamp (some { x.style.getD {} with size := some s }) now) := by
    intro s
    rw [setFontSize, updateNodeStyle_mapAtId,
      findNodeById_mapAtId_self (fun n => by simp) f, hfind, Option.map_some']
  have hframe : ∀ (s : FontSize) (tid : Nat), tid ≠ nid →
      ((findNodeById (setFontSize nid s now f) tid).map nodeSig
        = (findNodeById f tid).map nodeSig)
      ∧ ((findNodeById (setFontSize nid s now f) tid).map childIds
        = (findNodeById f tid).map childIds) := by
    intro s tid hne
    rw [setFontSize, updateNodeStyle_mapAtId]
    exact findNodeById_mapAtId_other (fun n => by simp)
      (fun n => by cases n; rfl) hne f
  have hinc : ∀ s₀ : FontSize, x.style.bind Style.size = some s₀ →
      incFont nid now f = setFontSize nid
        (fontOrder.getD (min (fontOrder.length - 1)
          (fontOrder.findIdx (fun s => s == s₀) + 1)) FontSize.base) now f := by
    intro s₀ hc
    rw [incFont, hfind]
    simp [hc]
  have hdec : ∀ s₀ : FontSize, x.style.bind Style.size = some s₀ →
      decFont nid now f = setFontSize nid
        (fontOrder.getD (max 0
          (fontOrder.findIdx (fun s => s == s₀) - 1)) FontSize.base) now f := by
    intro s₀ hc
    rw [decFont, hfind]
    simp [hc]
  have hincNone : x.style.bind Style.size = none →
      incFont nid now f = setFontSize nid FontSize.lg now f := by
    intro hc
    have hx : fontOrder[(fontOrder.length - 1)
        ⊓ (List.findIdx (fun s => s == FontSize.base) fontOrder + 1)]?.getD
        FontSize.base = FontSize.lg := by decide
    rw [incFont, hfind]
    simp [hc, hx]
  have hdecNone : x.style.bind Style.size = none →
      decFont nid now f = setFontSize nid FontSize.sm now f := by
    intro hc
    have hx : fontOrder[List.findIdx (fun s => s == FontSize.base) fontOrder
        - 1]?.getD FontSize.base = FontSize.sm := by decide
    rw [decFont, hfind]
    simp [hc, hx]
  refine ⟨?_, ?_, ?_, ?_⟩
  · intro hc
    rw [hinc FontSize.xl hc]
    have : (fontOrder.getD (min (fontOrder.length - 1)
        (fontOrder.findIdx (fun s => s == FontSize.xl) + 1)) FontSize.base)
        = FontSize.xl := by decide
    rw [this]
    exact hfindSet FontSize.xl
  · intro hc
    rw [hdec FontSize.sm hc]
    have : (fontOrder.getD (max 0
        (fontOrder.findIdx (fun s => s == FontSize.sm) - 1)) FontSize.base)
        = FontSize.sm := by decide
    rw [this]
    exact hfindSet FontSize.sm
  · intro hc
    exact ⟨by rw [hincNone hc]; exact hfindSet FontSize.lg,
           by rw [hdecNone hc]; exact hfindSet FontSize.sm⟩
  · intro tid hne
    rcases hc : x.style.bind Style.size with _ | s₀
    · obtain ⟨hi1, hi2⟩ := (by rw [hincNone hc]; exact hframe FontSize.lg tid hne :
        ((findNodeById (incFont nid now f) tid).map nodeSig
          = (findNodeById f tid).map nodeSig)
        ∧ ((findNodeById (incFont nid now f) tid).map childIds
          = (findNodeById f tid).map childIds))
      obtain ⟨hd1, hd2⟩ := (by rw [hdecNone hc]; exact hframe FontSize.sm tid hne :
        ((findNodeById (decFont nid now f) tid).map nodeSig
          = (findNodeById f tid).map nodeSig)
        ∧ ((findNodeById (decFont nid now f) tid).map childIds
          = (findNodeById f tid).map childIds))
      exact ⟨hi1, hi2, hd1, hd2⟩
    · obtain ⟨hi1, hi2⟩ := (by rw [hinc s₀ hc]; exact hframe _ tid hne :
        ((findNodeById (incFont nid now f) tid).map nodeSig
          = (findNodeById f tid).map nodeSig)
        ∧ ((findNodeById (incFont nid now f) tid).map childIds
          = (findNodeById f tid).map childIds))
      obtain ⟨hd1, hd2⟩ := (by rw [hdec s₀ hc]; exact hframe _ tid hne :
        ((findNodeById (decFont nid now f) tid).map nodeSig
          = (findNodeById f tid).map nodeSig)
        ∧ ((findNodeById (decFont nid now f) tid).map childIds
          = (findNodeById f tid).map childIds))
      exact ⟨hi1, hi2, hd1, hd2⟩

theorem claim_C10_font_witness :
    findNodeById (incFont 1 5
      [NoteNode.mk 1 "a" [] none none none
         (some { bold := some true, italic := none, underline := none,
                 size := some FontSize.xl }) none 0 0]) 1
      = some (NoteNode.mk 1 "a" [] none none none
          (some { bold := some true, italic := none, underline := none,
                  size := some FontSize.xl }) none 0 5) :=
  (claim_C10_font 1 5
    [NoteNode.mk 1 "a" [] none none none
       (some { bold := some true, italic := none, underline := none,
               size := some FontSize.xl }) none 0 0]
    (NoteNode.mk 1 "a" [] none none none
       (some { bold := some true, italic := none, underline := none,
               size := some FontSize.xl }) none 0 0)
    (by rw [findNodeById_cons]; rfl)).1 rfl

/-- C7: the editor's Backspace handling can empty the forest, contrary to the
forest non-emptiness invariant.  With the forest `[A(content "", children
[B])]` (2 nodes in total, so the `> 1` guard passes), Backspace on the empty
first root `A` takes the empty-bullet delete branch (the merge branch needs a
previous visible node, and `A` is first), and `deleteNode` removes `A`
together with its entire subtree: the node count drops from 2 straight to 0,
not stopping at 1. -/
theorem claim_C7_backspace_empties_forest :
    getTotalNodeCount
      [NoteNode.mk 1 "" [NoteNode.mk 2 "x" [] none none none none none 0 0]
         none none none none none 0 0] = 2
    ∧ handleBackspace 1 true 9
        [NoteNode.mk 1 "" [NoteNode.mk 2 "x" [] none none none none none 0 0]
           none none none none none 0 0] = []
    ∧ getTotalNodeCount (handleBackspace 1 true 9
        [NoteNode.mk 1 "" [NoteNode.mk 2 "x" [] none none none none none 0 0]
           none none none none none 0 0]) = 0 := by
  have hcount : getTotalNodeCount
      [NoteNode.mk 1 "" [NoteNode.mk 2 "x" [] none none none none none 0 0]
         none none none none none 0 0] = 2 := by
    simp [getTotalNodeCount, NoteNode.children]
  have hhb : handleBackspace 1 true 9
      [NoteNode.mk 1 "" [NoteNode.mk 2 "x" [] none none none none none 0 0]
         none none none none none 0 0] = [] := by
    rw [handleBackspace]
    simp [flattenVisibleNodes, findNodeById_cons, findNodeById_nil,
      NoteNode.id, NoteNode.children, NoteNode.collapsed, NoteNode.content,
      List.findIdx?_cons, stripTags, stripTagsAux, hcount,
      deleteNode_cons, deleteNode_nil]
  exact ⟨hcount, hhb, by rw [hhb]; simp [getTotalNodeCount]⟩

/-! Scheduler lemmas for the debounce claim. -/

theorem editChain_nil (nid : Nat) (f : List NoteNode) : editChain nid f [] = [] := by
  rw [editChain]

theorem editChain_cons (nid : Nat) (f : List NoteNode) (t : Nat) (c : String)
    (rest : List (Nat × String)) :
    editChain nid f ((t, c) :: rest)
      = (t, updateNodeContent nid c t f)
        :: editChain nid (updateNodeContent nid c t f) rest := by
  rw [editChain]

theorem idsOf_updateNodeContent (nid : Nat) (c : String) (t : Nat)
    (f : List NoteNode) : idsOf (updateNodeContent nid c t f) = idsOf f := by
  rw [updateNodeContent_mapAtId]
  exact idsOf_mapAtId (fun n => by simp) (fun n => by simp) f

theorem content_updateNodeContent {nid : Nat} {c : String} {t : Nat}
    {f : List NoteNode} (hmem : nid ∈ idsOf f) :
    ((findNodeById (updateNodeContent nid c t f) nid).map NoteNode.content)
      = some c := by
  obtain ⟨x, hx⟩ := findNodeById_isSome hmem
  rw [updateNodeContent_mapAtId,
    findNodeById_mapAtId_self (fun n => by simp) f, hx, Option.map_some',
    Option.map_some', NoteNode.content_withContentStamp]

theorem editChain_final (nid : Nat) :
    ∀ (edits : List (Nat × String)) (f : List NoteNode) (t : Nat) (c : String),
      nid ∈ idsOf f →
      ∃ tN cN snap, ((t, c) :: edits).getLast? = some (tN, cN)
        ∧ (editChain nid f ((t, c) :: edits)).getLast? = some (tN, snap)
        ∧ (findNodeById snap nid).map NoteNode.content = some cN := by
  intro edits
  induction edits with
  | nil =>
    intro f t c hmem
    refine ⟨t, c, updateNodeContent nid c t f, rfl, ?_, content_updateNodeContent hmem⟩
    rw [editChain_cons, editChain_nil]
    rfl
  | cons e rest ih =>
    intro f t c hmem
    obtain ⟨t', c'⟩ := e
    have hmem1 : nid ∈ idsOf (updateNodeContent nid c t f) := by
      rw [idsOf_updateNodeContent]
      exact hmem
    obtain ⟨tN, cN, snap, h1, h2, h3⟩ := ih (updateNodeContent nid c t f) t' c' hmem1
    refine ⟨tN, cN, snap, ?_, ?_, h3⟩
    · rw [List.getLast?_cons_cons]
      exact h1
    · rw [editChain_cons, editChain_cons, List.getLast?_cons_cons]
      rw [editChain_cons] at h2
      exact h2

theorem editChain_times (nid : Nat) :
    ∀ (edits : List (Nat × String)) (f : List NoteNode),
      (editChain nid f edits).map Prod.fst = edits.map Prod.fst := by
  intro edits
  induction edits with
  | nil => intro f; rw [editChain_nil]; rfl
  | cons e rest ih =>
    intro f
    obtain ⟨t, c⟩ := e
    rw [editChain_cons, List.map_cons, List.map_cons, ih]

theorem runScheduler_coalesce :
    ∀ (es : List (Nat × List NoteNode)) (t : Nat) (d : List NoteNode)
      (saves : List (List NoteNode)),
      List.Chain' (fun a b => b.1 < a.1 + 400) ((t, d) :: es) →
      runScheduler es (some (t + 400, d)) saves
        = saves ++ [(((t, d) :: es).getLast (List.cons_ne_nil _ _)).2] := by
  intro es
  induction es with
  | nil =>
    intro t d saves _
    rw [runScheduler]
    rfl
  | cons e rest ih =>
    intro t d saves hchain
    obtain ⟨t', d'⟩ := e
    obtain ⟨hrel, hchain'⟩ := List.chain'_cons.mp hchain
    rw [runScheduler, if_neg (by omega), ih t' d' saves hchain',
      List.getLast_cons (List.cons_ne_nil _ _)]

theorem runScheduler_spaced :
    ∀ (es : List (Nat × List NoteNode)) (t : Nat) (d : List NoteNode)
      (saves : List (List NoteNode)),
      List.Chain' (fun a b => a.1 + 400 < b.1) ((t, d) :: es) →
      runScheduler es (some (t + 400, d)) saves
        = saves ++ d :: es.map Prod.snd := by
  intro es
  induction es with
  | nil =>
    intro t d saves _
    rw [runScheduler]
    rfl
  | cons e rest ih =>
    intro t d saves hchain
    obtain ⟨t', d'⟩ := e
    obtain ⟨hrel, hchain'⟩ := List.chain'_cons.mp hchain
    rw [runScheduler, if_pos (by omega), ih t' d' (saves ++ [d]) hchain',
      List.map_cons, List.append_assoc, List.singleton_append]

theorem savesFor_cons (t : Nat) (d : List NoteNode)
    (es : List (Nat × List NoteNode)) :
    savesFor ((t, d) :: es) = runScheduler es (some (t + 400, d)) [] := by
  rw [savesFor, runScheduler]

/-- **C8.** Debounced persistence (`scheduleSave`, 845-853, with
`handleContentChange`, 855-859): for a burst of content edits to the same node
in which every consecutive pair is closer than the 400ms quiet window, exactly
one save is issued, and it carries the latest full snapshot, whose content at
the edited node is the final edit's content; for edits spaced strictly further
apart than the window, every edit produces its own save call, in order. -/
theorem claim_C8_debounce (nid : Nat) (f0 : List NoteNode)
    (e0 : Nat × String) (edits : List (Nat × String))
    (hmem : nid ∈ idsOf f0) :
    (List.Chain' (fun a b => b.1 < a.1 + 400) (e0 :: edits) →
      ∀ tN cN, (e0 :: edits).getLast? = some (tN, cN) →
        ∃ snap, savesFor (editChain nid f0 (e0 :: edits)) = [snap]
          ∧ (findNodeById snap nid).map NoteNode.content = some cN)
    ∧ (List.Chain' (fun a b => a.1 + 400 < b.1) (e0 :: edits) →
        savesFor (editChain nid f0 (e0 :: edits))
          = (editChain nid f0 (e0 :: edits)).map Prod.snd) := by
  obtain ⟨t0, c0⟩ := e0
  constructor
  · intro hchain tN cN hlast
    obtain ⟨tN', cN', snap, h1, h2, h3⟩ := editChain_final nid edits f0 t0 c0 hmem
    rw [hlast] at h1
    injection h1 with h1'
    injection h1' with ha hb
    subst ha hb
    refine ⟨snap, ?_, h3⟩
    have h5 : List.Chain' (fun a b : Nat => b < a + 400)
        (List.map Prod.fst (editChain nid f0 ((t0, c0) :: edits))) := by
      rw [editChain_times]
      exact (List.chain'_map Prod.fst).mpr hchain
    have hch2 : List.Chain' (fun a b => b.1 < a.1 + 400)
        (editChain nid f0 ((t0, c0) :: edits)) :=
      (List.chain'_map Prod.fst).mp h5
    rw [editChain_cons] at hch2 h2 ⊢
    have h7 : (((t0, updateNodeContent nid c0 t0 f0)
          :: editChain nid (updateNodeContent nid c0 t0 f0) edits).getLast
            (List.cons_ne_nil _ _)) = (tN, snap) := by
      rw [← Option.some_inj, ← List.getLast?_eq_getLast]
      exact h2
    rw [savesFor_cons,
      runScheduler_coalesce (editChain nid (updateNodeContent nid c0 t0 f0) edits)
        t0 (updateNodeContent nid c0 t0 f0) [] hch2, h7]
    rfl
  · intro hchain
    have h5 : List.Chain' (fun a b : Nat => a + 400 < b)
        (List.map Prod.fst (editChain nid f0 ((t0, c0) :: edits))) := by
      rw [editChain_times]
      exact (List.chain'_map Prod.fst).mpr hchain
    have hch2 : List.Chain' (fun a b => a.1 + 400 < b.1)
        (editChain nid f0 ((t0, c0) :: edits)) :=
      (List.chain'_map Prod.fst).mp h5
    rw [editChain_cons] at hch2 ⊢
    rw [savesFor_cons,
      runScheduler_spaced (editChain nid (updateNodeContent nid c0 t0 f0) edits)
        t0 (updateNodeContent nid c0 t0 f0) [] hch2, List.map_cons,
      List.nil_append]

/-- Witness for C8: node 1 exists in the one-node forest; two edits 100ms
apart coalesce into a single save whose snapshot carries the final content. -/
theorem claim_C8_debounce_witness :
    (1 ∈ idsOf [NoteNode.mk 1 "a" [] none none none none none 0 0]) ∧
    (∃ snap, savesFor (editChain 1
        [NoteNode.mk 1 "a" [] none none none none none 0 0]
        [(0, "b"), (100, "c")]) = [snap]
      ∧ (findNodeById snap 1).map NoteNode.content = some "c") := by
  have hmem : (1 : Nat) ∈ idsOf
      [NoteNode.mk 1 "a" [] none none none none none 0 0] := by
    simp [idsOf, subtreeForest_cons, NoteNode.id, NoteNode.children]
  have hch : List.Chain' (fun a b : Nat × String => b.1 < a.1 + 400)
      [(0, "b"), (100, "c")] :=
    List.chain'_cons.mpr ⟨by omega, List.chain'_singleton _⟩
  exact ⟨hmem,
    (claim_C8_debounce 1 _ (0, "b") [(100, "c")] hmem).1 hch 100 "c" rfl⟩

/-! Flatten-length analysis for the collapse claim. -/

theorem flattenVisibleNodes_nil : flattenVisibleNodes [] = [] := by
  rw [flattenVisibleNodes]

theorem flattenVisibleNodes_cons (n : NoteNode) (rest : List NoteNode) :
    flattenVisibleNodes (n :: rest)
      = n :: ((if ¬n.children.isEmpty ∧ n.collapsed ≠ some true
               then flattenVisibleNodes n.children else [])
              ++ flattenVisibleNodes rest) := by
  rw [flattenVisibleNodes]

theorem mem_subtreeForest_of_mem_flatten :
    ∀ {l : List NoteNode} {y : NoteNode},
      y ∈ flattenVisibleNodes l → y ∈ subtreeForest l := by
  intro l
  induction l using forestInd with
  | hnil => intro y h; rw [flattenVisibleNodes_nil] at h; cases h
  | hcons x xs ihc iht =>
    intro y h
    rw [flattenVisibleNodes_cons] at h
    rw [subtreeForest_cons]
    rcases List.mem_cons.mp h with rfl | h
    · exact List.mem_cons_self _ _
    · rcases List.mem_append.mp h with h | h
      · by_cases hc : ¬x.children.isEmpty ∧ x.collapsed ≠ some true
        · rw [if_pos hc] at h
          exact List.mem_cons_of_mem _ (List.mem_append_left _ (ihc h))
        · rw [if_neg hc] at h; cases h
      · exact List.mem_cons_of_mem _ (List.mem_append_right _ (iht h))

theorem mapAtId_comp {tid : Nat} {g1 g2 : NoteNode → NoteNode}
    (hid : ∀ n, (g1 n).id = n.id) :
    ∀ l, mapAtId tid g2 (mapAtId tid g1 l)
      = mapAtId tid (fun n => g2 (g1 n)) l := by
  intro l
  induction l using forestInd with
  | hnil => rw [mapAtId_nil, mapAtId_nil, mapAtId_nil]
  | hcons x xs ihc iht =>
    rw [mapAtId_cons, mapAtId_cons, mapAtId_cons, iht]
    congr 1
    by_cases h : x.id = tid
    · simp only [if_pos h]
      rw [hid, if_pos h]
    · simp only [if_neg h]
      rw [NoteNode.id_withChildren, if_neg h, NoteNode.children_withChildren,
        NoteNode.withChildren_withChildren, ihc]

theorem mapAtId_isEmpty (tid : Nat) (g : NoteNode → NoteNode)
    (l : List NoteNode) : (mapAtId tid g l).isEmpty = l.isEmpty := by
  cases l with
  | nil => rw [mapAtId_nil]
  | cons x xs => rw [mapAtId_cons]; rfl

theorem setNodeCollapsed_cons (nid : Nat) (c : Bool) (now : Nat)
    (y : NoteNode) (ys : List NoteNode) :
    setNodeCollapsed nid c now (y :: ys)
      = (if y.id = nid then y.withCollapsedStamp (some c) now
         else y.withChildren (setNodeCollapsed nid c now y.children))
        :: setNodeCollapsed nid c now ys := by
  rw [setNodeCollapsed_mapAtId, mapAtId_cons]
  simp only [← setNodeCollapsed_mapAtId]

theorem setNodeCollapsed_of_not_mem {nid : Nat} {c : Bool} {now : Nat}
    {l : List NoteNode} (h : nid ∉ idsOf l) :
    setNodeCollapsed nid c now l = l := by
  rw [setNodeCollapsed_mapAtId]
  exact mapAtId_of_not_mem h

theorem setNodeCollapsed_isEmpty (nid : Nat) (c : Bool) (now : Nat)
    (l : List NoteNode) : (setNodeCollapsed nid c now l).isEmpty = l.isEmpty := by
  rw [setNodeCollapsed_mapAtId]
  exact mapAtId_isEmpty nid _ l

theorem withCollapsedStamp_overwrite (n : NoteNode) (a b : Option Bool)
    (t1 t2 : Nat) :
    (n.withCollapsedStamp a t1).withCollapsedStamp b t2
      = n.withCollapsedStamp b t2 := by cases n; rfl

theorem setNodeCollapsed_setNodeCollapsed (nid : Nat) (c1 c2 : Bool)
    (t1 t2 : Nat) (l : List NoteNode) :
    setNodeCollapsed nid c2 t2 (setNodeCollapsed nid c1 t1 l)
      = setNodeCollapsed nid c2 t2 l := by
  simp only [setNodeCollapsed_mapAtId]
  rw [mapAtId_comp (fun n => by simp) l]
  simp only [withCollapsedStamp_overwrite]

theorem flatten_length_setNodeCollapsed (nid : Nat) (c : Bool) (now : Nat) :
    ∀ {l : List NoteNode} {x : NoteNode}, NoDupIds l →
      findNodeById l nid = some x → x ∈ flattenVisibleNodes l →
      (flattenVisibleNodes (setNodeCollapsed nid c now l)).length
          + (if ¬x.children.isEmpty ∧ x.collapsed ≠ some true
             then (flattenVisibleNodes x.children).length else 0)
        = (flattenVisibleNodes l).length
          + (if ¬x.children.isEmpty ∧ c ≠ true
             then (flattenVisibleNodes x.children).length else 0) := by
  intro l
  induction l using forestInd with
  | hnil => intro x _ hfind _; rw [findNodeById_nil] at hfind; cases hfind
  | hcons y ys ihc iht =>
    intro x hnd hfind hvis
    obtain ⟨hyc, hyt, hndc, hndt, hdisj⟩ := noDupIds_cons.mp hnd
    rw [setNodeCollapsed_cons]
    rw [findNodeById_cons] at hfind
    by_cases h : y.id = nid
    · rw [if_pos h] at hfind
      injection hfind with hx
      subst hx
      rw [if_pos h, setNodeCollapsed_of_not_mem (h ▸ hyt),
        flattenVisibleNodes_cons, flattenVisibleNodes_cons]
      simp only [List.length_cons, List.length_append, apply_ite List.length,
        List.length_nil, NoteNode.children_withCollapsedStamp,
        NoteNode.collapsed_withCollapsedStamp, ne_eq, Option.some.injEq]
      split_ifs <;> omega
    · rw [if_neg h] at hfind
      rw [if_neg h]
      rcases hcf : findNodeById y.children nid with _ | z
      · rw [hcf] at hfind
        have hnc : nid ∉ idsOf y.children := by
          intro hm
          obtain ⟨w, hw⟩ := findNodeById_isSome hm
          rw [hw] at hcf
          exact Option.noConfusion hcf
        rw [setNodeCollapsed_of_not_mem hnc, NoteNode.withChildren_children]
        have hxid : x.id = nid := (findNodeById_mem hfind).2
        rw [flattenVisibleNodes_cons] at hvis
        have hvys : x ∈ flattenVisibleNodes ys := by
          rcases List.mem_cons.mp hvis with rfl | hvis2
          · exact absurd hxid h
          rcases List.mem_append.mp hvis2 with hin | hin
          · by_cases hcond : ¬y.children.isEmpty ∧ y.collapsed ≠ some true
            · rw [if_pos hcond] at hin
              have h1 := (subtreeForest_facts (mem_subtreeForest_of_mem_flatten hin)).1
              rw [hxid] at h1
              exact absurd h1 hnc
            · rw [if_neg hcond] at hin; cases hin
          · exact hin
        have key := iht hndt hfind hvys
        rw [flattenVisibleNodes_cons, flattenVisibleNodes_cons]
        simp only [List.length_cons, List.length_append, apply_ite List.length,
          List.length_nil]
        omega
      · rw [hcf] at hfind
        injection hfind with hx
        subst hx
        have hfx := findNodeById_mem hcf
        have hmemc : nid ∈ idsOf y.children := hfx.2 ▸ (subtreeForest_facts hfx.1).1
        have hnys : nid ∉ idsOf ys := fun hm => hdisj nid hmemc hm
        rw [setNodeCollapsed_of_not_mem hnys]
        rw [flattenVisibleNodes_cons] at hvis
        rcases List.mem_cons.mp hvis with rfl | hvis2
        · exact absurd hfx.2 h
        rcases List.mem_append.mp hvis2 with hin | hin
        · by_cases hcond : ¬y.children.isEmpty ∧ y.collapsed ≠ some true
          · rw [if_pos hcond] at hin
            have key := ihc hndc hcf hin
            rw [flattenVisibleNodes_cons, flattenVisibleNodes_cons]
            simp only [NoteNode.children_withChildren, NoteNode.collapsed_withChildren,
              setNodeCollapsed_isEmpty, List.length_cons, List.length_append,
              apply_ite List.length, List.length_nil]
            rw [if_pos hcond, if_pos hcond]
            omega
          · rw [if_neg hcond] at hin; cases hin
        · have h1 := (subtreeForest_facts (mem_subtreeForest_of_mem_flatten hin)).1
          rw [hfx.2] at h1
          exact absurd h1 hnys

/-- **C6 counterexample:** in the forest `[X(children=[Y(collapsed, children=[Z])])]`,
node X (id 1) has 2 descendants, but only 1 of them is visible (Z is hidden under
the already-collapsed Y), so collapsing X shrinks the flattened visible list by 1,
not by X's descendant count 2: the claimed identity
`flatLen f = flatLen (collapse) + descendants` fails. -/
theorem claim_C6_counterexample :
    getTotalNodeCount
      (NoteNode.mk 1 "x"
        [NoteNode.mk 2 "y" [NoteNode.mk 3 "z" [] none none none none none 0 0]
          none none none none (some true) 0 0]
        none none none none none 0 0).children = 2
    ∧ (flattenVisibleNodes
        [NoteNode.mk 1 "x"
          [NoteNode.mk 2 "y" [NoteNode.mk 3 "z" [] none none none none none 0 0]
            none none none none (some true) 0 0]
          none none none none none 0 0]).length = 2
    ∧ (flattenVisibleNodes (setNodeCollapsed 1 true 7
        [NoteNode.mk 1 "x"
          [NoteNode.mk 2 "y" [NoteNode.mk 3 "z" [] none none none none none 0 0]
            none none none none (some true) 0 0]
          none none none none none 0 0])).length = 1
    ∧ (flattenVisibleNodes
        [NoteNode.mk 1 "x"
          [NoteNode.mk 2 "y" [NoteNode.mk 3 "z" [] none none none none none 0 0]
            none none none none (some true) 0 0]
          none none none none none 0 0]).length
      ≠ (flattenVisibleNodes (setNodeCollapsed 1 true 7
          [NoteNode.mk 1 "x"
            [NoteNode.mk 2 "y" [NoteNode.mk 3 "z" [] none none none none none 0 0]
              none none none none (some true) 0 0]
            none none none none none 0 0])).length
        + getTotalNodeCount
            (NoteNode.mk 1 "x"
              [NoteNode.mk 2 "y" [NoteNode.mk 3 "z" [] none none none none none 0 0]
                none none none none (some true) 0 0]
              none none none none none 0 0).children := by
  refine ⟨?_, ?_, ?_, ?_⟩ <;>
    simp [getTotalNodeCount, flattenVisibleNodes, setNodeCollapsed_cons,
      setNodeCollapsed_of_not_mem, NoteNode.id, NoteNode.children,
      NoteNode.collapsed, NoteNode.withCollapsedStamp, idsOf, subtreeForest_cons]

/-- **C6 (corrected).** For every forest with globally unique ids and every
*visible*, currently-expanded node with children, setting its `collapsed` flag
to true decreases the flattened visible list length by exactly the number of
its *visible* descendants (the length of its children's flattening) — not by
its total descendant count, which also counts nodes hidden under
already-collapsed inner nodes — and setting `collapsed` back to false restores
the original length exactly. -/
theorem claim_C6_collapse (nid now now2 : Nat) (f : List NoteNode)
    (x : NoteNode) (hnd : NoDupIds f) (hfind : findNodeById f nid = some x)
    (hvis : x ∈ flattenVisibleNodes f) (hne : ¬x.children.isEmpty)
    (hexp : x.collapsed ≠ some true) :
    (flattenVisibleNodes (setNodeCollapsed nid true now f)).length
        + (flattenVisibleNodes x.children).length
      = (flattenVisibleNodes f).length
    ∧ (flattenVisibleNodes (setNodeCollapsed nid false now2
          (setNodeCollapsed nid true now f))).length
      = (flattenVisibleNodes f).length := by
  have h1 := flatten_length_setNodeCollapsed nid true now hnd hfind hvis
  rw [if_pos ⟨hne, hexp⟩, if_neg (fun hh => hh.2 rfl)] at h1
  have h2 := flatten_length_setNodeCollapsed nid false now2 hnd hfind hvis
  rw [if_pos ⟨hne, hexp⟩, if_pos ⟨hne, Bool.false_ne_true⟩] at h2
  rw [setNodeCollapsed_setNodeCollapsed]
  exact ⟨by omega, by omega⟩

/-- Witness for C6: collapsing node 1 in `[X(children=[Y]), W]` removes exactly
its one visible descendant from the flattening and re-expanding restores it. -/
theorem claim_C6_collapse_witness :
    NoDupIds
      [NoteNode.mk 1 "x" [NoteNode.mk 2 "y" [] none none none none none 0 0]
         none none none none none 0 0,
       NoteNode.mk 4 "w" [] none none none none none 0 0]
    ∧ (flattenVisibleNodes (setNodeCollapsed 1 true 7
        [NoteNode.mk 1 "x" [NoteNode.mk 2 "y" [] none none none none none 0 0]
           none none none none none 0 0,
         NoteNode.mk 4 "w" [] none none none none none 0 0])).length
        + (flattenVisibleNodes
            (NoteNode.mk 1 "x" [NoteNode.mk 2 "y" [] none none none none none 0 0]
               none none none none none 0 0).children).length
      = (flattenVisibleNodes
          [NoteNode.mk 1 "x" [NoteNode.mk 2 "y" [] none none none none none 0 0]
             none none none none none 0 0,
           NoteNode.mk 4 "w" [] none none none none none 0 0]).length
    ∧ (flattenVisibleNodes (setNodeCollapsed 1 false 9 (setNodeCollapsed 1 true 7
        [NoteNode.mk 1 "x" [NoteNode.mk 2 "y" [] none none none none none 0 0]
           none none none none none 0 0,
         NoteNode.mk 4 "w" [] none none none none none 0 0]))).length
      = (flattenVisibleNodes
          [NoteNode.mk 1 "x" [NoteNode.mk 2 "y" [] none none none none none 0 0]
             none none none none none 0 0,
           NoteNode.mk 4 "w" [] none none none none none 0 0]).length := by
  have hnd : NoDupIds
      [NoteNode.mk 1 "x" [NoteNode.mk 2 "y" [] none none none none none 0 0]
         none none none none none 0 0,
       NoteNode.mk 4 "w" [] none none none none none 0 0] := by
    simp [NoDupIds, idsOf, subtreeForest_cons, NoteNode.id, NoteNode.children]
  have hfind : findNodeById
      [NoteNode.mk 1 "x" [NoteNode.mk 2 "y" [] none none none none none 0 0]
         none none none none none 0 0,
       NoteNode.mk 4 "w" [] none none none none none 0 0] 1
      = some (NoteNode.mk 1 "x"
          [NoteNode.mk 2 "y" [] none none none none none 0 0]
          none none none none none 0 0) := by
    simp [findNodeById_cons, NoteNode.id]
  have hvis : (NoteNode.mk 1 "x"
        [NoteNode.mk 2 "y" [] none none none none none 0 0]
        none none none none none 0 0)
      ∈ flattenVisibleNodes
        [NoteNode.mk 1 "x" [NoteNode.mk 2 "y" [] none none none none none 0 0]
           none none none none none 0 0,
         NoteNode.mk 4 "w" [] none none none none none 0 0] := by
    rw [flattenVisibleNodes_cons]
    exact List.mem_cons_self _ _
  have h := claim_C6_collapse 1 7 9 _ _ hnd hfind hvis (by simp [NoteNode.children])
    (by simp [NoteNode.collapsed])
  exact ⟨hnd, h.1, h.2⟩

/-! Pre-order structure lemmas for the merge claim. -/

theorem flatten_sublist : ∀ (l : List NoteNode),
    (flattenVisibleNodes l).Sublist (subtreeForest l) := by
  intro l
  induction l using forestInd with
  | hnil => rw [flattenVisibleNodes_nil, subtreeForest_nil]
  | hcons x xs ihc iht =>
    rw [flattenVisibleNodes_cons, subtreeForest_cons]
    refine List.Sublist.cons₂ x ?_
    by_cases hc : ¬x.children.isEmpty ∧ x.collapsed ≠ some true
    · rw [if_pos hc]; exact ihc.append iht
    · rw [if_neg hc]; exact (List.nil_sublist _).append iht

theorem subtreeForest_append : ∀ (a b : List NoteNode),
    subtreeForest (a ++ b) = subtreeForest a ++ subtreeForest b := by
  intro a b
  induction a with
  | nil => rw [subtreeForest_nil, List.nil_append, List.nil_append]
  | cons x xs ih =>
    rw [List.cons_append, subtreeForest_cons, subtreeForest_cons, ih,
      List.cons_append, List.append_assoc]

theorem findNodeById_append (tid : Nat) : ∀ (a b : List NoteNode),
    findNodeById (a ++ b) tid
      = match findNodeById a tid with
        | some w => some w
        | none => findNodeById b tid := by
  intro a b
  induction a with
  | nil => rw [List.nil_append, findNodeById_nil]
  | cons x xs ih =>
    rw [List.cons_append, findNodeById_cons, findNodeById_cons]
    by_cases h : x.id = tid
    · rw [if_pos h, if_pos h]
    · rw [if_neg h, if_neg h]
      rcases hc : findNodeById x.children tid with _ | w
      · exact ih
      · rfl

theorem subtree_id_not_in_children : ∀ {l : List NoteNode}, NoDupIds l →
    ∀ {y : NoteNode}, y ∈ subtreeForest l → y.id ∉ idsOf y.children := by
  intro l
  induction l using forestInd with
  | hnil => intro _ y h; simp at h
  | hcons x xs ihc iht =>
    intro hnd y h
    obtain ⟨hyc, _, hndc, hndt, _⟩ := noDupIds_cons.mp hnd
    rw [subtreeForest_cons] at h
    rcases List.mem_cons.mp h with rfl | h
    · exact hyc
    · rcases List.mem_append.mp h with h | h
      · exact ihc hndc h
      · exact iht hndt h

theorem cons_append_index {α : Type} {x y : α} {C T : List α} {i : Nat}
    (h : (x :: (C ++ T))[i]? = some y) :
    (i = 0 ∧ y = x)
    ∨ (∃ j, i = j + 1 ∧ j < C.length ∧ C[j]? = some y)
    ∨ (∃ j, i = j + 1 ∧ C.length ≤ j ∧ T[j - C.length]? = some y) := by
  cases i with
  | zero =>
    rw [List.getElem?_cons_zero] at h
    exact Or.inl ⟨rfl, (Option.some.inj h).symm⟩
  | succ j =>
    rw [List.getElem?_cons_succ] at h
    by_cases hlt : j < C.length
    · exact Or.inr (Or.inl ⟨j, rfl, hlt, by rwa [List.getElem?_append_left hlt] at h⟩)
    · push_neg at hlt
      exact Or.inr (Or.inr ⟨j, rfl, hlt, by rwa [List.getElem?_append_right hlt] at h⟩)

/-- In the flattened visible list, a node strictly inside another node's
subtree appears strictly after it (depth-first pre-order). -/
theorem flatten_desc_after : ∀ {l : List NoteNode}, NoDupIds l →
    ∀ {i j : Nat} {y z : NoteNode},
      (flattenVisibleNodes l)[i]? = some y →
      (flattenVisibleNodes l)[j]? = some z →
      y.id ∈ idsOf z.children → j < i := by
  intro l
  induction l using forestInd with
  | hnil =>
    intro _ i j y z hy _ _
    rw [flattenVisibleNodes_nil] at hy
    simp at hy
  | hcons x xs ihc iht =>
    intro hnd i j y z hy hz hyz
    obtain ⟨hyc, hyt, hndc, hndt, hdisj⟩ := noDupIds_cons.mp hnd
    rw [flattenVisibleNodes_cons] at hy hz
    have idC : ∀ {w : Nat} {v : NoteNode},
        (if ¬x.children.isEmpty ∧ x.collapsed ≠ some true
          then flattenVisibleNodes x.children else [])[w]? = some v →
        (flattenVisibleNodes x.children)[w]? = some v ∧ v.id ∈ idsOf x.children := by
      intro w v hv
      by_cases hc : ¬x.children.isEmpty ∧ x.collapsed ≠ some true
      · rw [if_pos hc] at hv
        exact ⟨hv, (subtreeForest_facts
          (mem_subtreeForest_of_mem_flatten (List.getElem?_mem hv))).1⟩
      · rw [if_neg hc] at hv; simp at hv
    have idT : ∀ {w : Nat} {v : NoteNode},
        (flattenVisibleNodes xs)[w]? = some v → v.id ∈ idsOf xs := by
      intro w v hv
      exact (subtreeForest_facts
        (mem_subtreeForest_of_mem_flatten (List.getElem?_mem hv))).1
    rcases cons_append_index hy with ⟨hi0, rfl⟩ | ⟨i', rfl, hiC, hyC⟩ | ⟨i', rfl, hiT, hyT⟩
    · -- y = x
      rcases cons_append_index hz with ⟨_, rfl⟩ | ⟨j', rfl, hjC, hzC⟩ | ⟨j', rfl, hjT, hzT⟩
      · exact absurd hyz hyc
      · obtain ⟨hz', hzid⟩ := idC hzC
        have hsub := (subtreeForest_facts
          (mem_subtreeForest_of_mem_flatten (List.getElem?_mem hz'))).2
        exact absurd (hsub _ hyz) hyc
      · have hmem := mem_subtreeForest_of_mem_flatten (List.getElem?_mem hzT)
        have hsub := (subtreeForest_facts hmem).2
        exact absurd (hsub _ hyz) hyt
    · -- y in the children block
      obtain ⟨hy', hyid⟩ := idC hyC
      rcases cons_append_index hz with ⟨hj0, rfl⟩ | ⟨j', rfl, hjC, hzC⟩ | ⟨j', rfl, hjT, hzT⟩
      · omega
      · obtain ⟨hz', _⟩ := idC hzC
        have := ihc hndc hy' hz' hyz
        omega
      · have hmem := mem_subtreeForest_of_mem_flatten (List.getElem?_mem hzT)
        have hsub := (subtreeForest_facts hmem).2
        exact absurd hyid (fun hh => (hdisj _ hh) (hsub _ hyz))
    · -- y in the tail block
      have hyid := idT hyT
      rcases cons_append_index hz with ⟨hj0, rfl⟩ | ⟨j', rfl, hjC, hzC⟩ | ⟨j', rfl, hjT, hzT⟩
      · exact absurd hyid (fun hh => hdisj _ hyz hh)
      · obtain ⟨hz', hzid⟩ := idC hzC
        have hsub := (subtreeForest_facts
          (mem_subtreeForest_of_mem_flatten (List.getElem?_mem hz'))).2
        exact absurd hyid (fun hh => hdisj _ (hsub _ hyz) hh)
      · have := iht hndt hyT hzT hyz
        omega

theorem idsOf_deleteNode (nid : Nat) : ∀ (l : List NoteNode),
    nid ∉ idsOf (deleteNode nid l) := by
  intro l
  induction l using forestInd with
  | hnil => rw [deleteNode_nil]; simp [idsOf]
  | hcons x xs ihc iht =>
    rw [deleteNode_cons]
    by_cases h : x.id = nid
    · rw [if_pos h]; exact iht
    · rw [if_neg h]
      intro hm
      rcases mem_idsOf_cons.mp hm with hm | hm | hm
      · rw [NoteNode.id_withChildren] at hm; exact h hm.symm
      · rw [NoteNode.children_withChildren] at hm; exact ihc hm
      · exact iht hm

theorem findNodeById_deleteNode {nid pid : Nat} (hne : pid ≠ nid) :
    ∀ {l : List NoteNode},
      (∀ z ∈ subtreeForest l, z.id = nid → pid ∉ idsOf z.children) →
      findNodeById (deleteNode nid l) pid
        = (findNodeById l pid).map
            (fun n => n.withChildren (deleteNode nid n.children)) := by
  intro l
  induction l using forestInd with
  | hnil => intro _; rw [deleteNode_nil, findNodeById_nil]; rfl
  | hcons x xs ihc iht =>
    intro hsafe
    have hsafec : ∀ z ∈ subtreeForest x.children, z.id = nid →
        pid ∉ idsOf z.children := fun z hz => hsafe z (by
      rw [subtreeForest_cons]
      exact List.mem_cons_of_mem _ (List.mem_append_left _ hz))
    have hsafet : ∀ z ∈ subtreeForest xs, z.id = nid →
        pid ∉ idsOf z.children := fun z hz => hsafe z (by
      rw [subtreeForest_cons]
      exact List.mem_cons_of_mem _ (List.mem_append_right _ hz))
    rw [deleteNode_cons]
    by_cases h : x.id = nid
    · rw [if_pos h, findNodeById_cons,
        if_neg (show ¬x.id = pid from fun hh => hne (by rw [← hh]; exact h)),
        findNodeById_eq_none (hsafe x (by
          rw [subtreeForest_cons]; exact List.mem_cons_self _ _) h)]
      exact iht hsafet
    · rw [if_neg h, findNodeById_cons, findNodeById_cons]
      simp only [NoteNode.id_withChildren, NoteNode.children_withChildren]
      by_cases h2 : x.id = pid
      · rw [if_pos h2, if_pos h2, Option.map_some']
      · rw [if_neg h2, if_neg h2, ihc hsafec]
        rcases hc : findNodeById x.children pid with _ | w
        · rw [Option.map_none']
          dsimp only
          exact iht hsafet
        · rw [Option.map_some']

theorem subtree_safe_mapAtId {nid pid : Nat} {cc : List NoteNode}
    {g : NoteNode → NoteNode} (hne : pid ≠ nid)
    (hid : ∀ n, (g n).id = n.id)
    (hgch : ∀ n, (g n).children = n.children ++ cc)
    (hnidcc : nid ∉ idsOf cc) :
    ∀ {l : List NoteNode},
      (∀ z ∈ subtreeForest l, z.id = nid → pid ∉ idsOf z.children) →
      ∀ z ∈ subtreeForest (mapAtId pid g l), z.id = nid →
        pid ∉ idsOf z.children := by
  intro l
  induction l using forestInd with
  | hnil =>
    intro _ z hz
    rw [mapAtId_nil, subtreeForest_nil] at hz
    cases hz
  | hcons x xs ihc iht =>
    intro hsafe z hz hzid
    have hsafec : ∀ z ∈ subtreeForest x.children, z.id = nid →
        pid ∉ idsOf z.children := fun z hz => hsafe z (by
      rw [subtreeForest_cons]
      exact List.mem_cons_of_mem _ (List.mem_append_left _ hz))
    have hsafet : ∀ z ∈ subtreeForest xs, z.id = nid →
        pid ∉ idsOf z.children := fun z hz => hsafe z (by
      rw [subtreeForest_cons]
      exact List.mem_cons_of_mem _ (List.mem_append_right _ hz))
    rw [mapAtId_cons, subtreeForest_cons] at hz
    rcases List.mem_cons.mp hz with rfl | hz
    · by_cases h : x.id = pid
      · rw [if_pos h] at hzid
        rw [hid] at hzid
        exact absurd (show pid = nid by rw [← h]; exact hzid) hne
      · rw [if_neg h] at hzid ⊢
        rw [NoteNode.id_withChildren] at hzid
        rw [NoteNode.children_withChildren]
        have hx : pid ∉ idsOf x.children :=
          hsafe x (by rw [subtreeForest_cons]; exact List.mem_cons_self _ _) hzid
        rw [mapAtId_of_not_mem hx]
        exact hx
    · rcases List.mem_append.mp hz with hz | hz
      · by_cases h : x.id = pid
        · rw [if_pos h, hgch, subtreeForest_append] at hz
          rcases List.mem_append.mp hz with hz | hz
          · exact hsafe z (mem_subtreeForest_trans (List.mem_cons_self x xs) hz) hzid
          · exact absurd (hzid ▸ (subtreeForest_facts hz).1) hnidcc
        · rw [if_neg h, NoteNode.children_withChildren] at hz
          exact ihc hsafec z hz hzid
      · exact iht hsafet z hz hzid

/-- **C1 (corrected).** The Backspace merge (`handleKeyDown` 794-823) targets
the node immediately before `nodeId` in the flattened *visible* list — not the
document (depth-first) order predecessor; the two differ exactly when nodes are
hidden under collapsed ancestors (see the counterexample).  For the visible
predecessor `prev` (at visible index `i`, with the merged node at `i + 1`), the
claim's description of the merge itself is faithful: `prev`'s new content is
its old content plus the merged node's content, with one space inserted iff
both tag-stripped sides have non-whitespace abutting the join; the merged
node's children end up appended after `prev`'s existing children; and the
merged node is removed from the forest. -/
theorem claim_C1_merge (nid now : Nat) (f : List NoteNode) (i : Nat)
    (prev curr : NoteNode) (hnd : NoDupIds f)
    (hprev : (flattenVisibleNodes f)[i]? = some prev)
    (hcurr : (flattenVisibleNodes f)[i + 1]? = some curr)
    (hcid : curr.id = nid) :
    findNodeById (mergeIntoPrevious nid now f) prev.id
      = some ((prev.withContentStamp
          (if endsNonWS (stripTags prev.content)
              && startsNonWS (stripTags curr.content)
           then prev.content ++ " " ++ curr.content
           else prev.content ++ curr.content) now).withChildren
          (deleteNode nid (prev.children ++ curr.children)))
    ∧ nid ∉ idsOf (mergeIntoPrevious nid now f) := by
  have hndflat : ((flattenVisibleNodes f).map NoteNode.id).Nodup := by
    have hs := (flatten_sublist f).map NoteNode.id
    exact List.Nodup.sublist hs hnd
  have hfidx : (flattenVisibleNodes f).findIdx? (fun n => n.id == nid)
      = some (i + 1) := by
    have := findIdx?_id_of_nodup hndflat hcurr
    rwa [hcid] at this
  have hprevmem : prev ∈ subtreeForest f :=
    (flatten_sublist f).subset (List.getElem?_mem hprev)
  have hcurrmem : curr ∈ subtreeForest f :=
    (flatten_sublist f).subset (List.getElem?_mem hcurr)
  have hfprev : findNodeById f prev.id = some prev := findNodeById_unique hnd hprevmem
  have hfcurr : findNodeById f nid = some curr := by
    have := findNodeById_unique hnd hcurrmem
    rwa [hcid] at this
  have hpneq : prev.id ≠ nid := by
    intro hh
    have h1 : ((flattenVisibleNodes f).map NoteNode.id)[i]? = some nid := by
      rw [List.getElem?_map, hprev, Option.map_some', hh]
    have h2 : ((flattenVisibleNodes f).map NoteNode.id)[i + 1]? = some nid := by
      rw [List.getElem?_map, hcurr, Option.map_some', hcid]
    have := nodup_getElem?_inj hndflat h1 h2
    omega
  have horder : prev.id ∉ idsOf curr.children := by
    intro hh
    have := flatten_desc_after hnd hprev hcurr hh
    omega
  have hnidcc : nid ∉ idsOf curr.children := by
    have := subtree_id_not_in_children hnd hcurrmem
    rwa [hcid] at this
  have hsafe_f : ∀ z ∈ subtreeForest f, z.id = nid → prev.id ∉ idsOf z.children := by
    intro z hz hzid
    have hu := findNodeById_unique hnd hz
    rw [hzid, hfcurr] at hu
    injection hu with hu
    rw [← hu]
    exact horder
  simp only [mergeIntoPrevious]
  rw [hfidx]
  dsimp only
  rw [if_pos (Nat.succ_pos i), Nat.add_sub_cancel, List.getD_eq_getElem?_getD,
    hprev]
  simp only [Option.getD_some]
  rw [hfprev, hfcurr]
  simp only [Option.map_some', Option.getD_some]
  rw [updateNodeContent_mapAtId, attachChildrenTo_mapAtId,
    mapAtId_comp (fun n => by simp) f]
  constructor
  · refine (findNodeById_deleteNode hpneq ?_).trans ?_
    · exact subtree_safe_mapAtId hpneq (fun n => by simp) (fun n => by simp)
        hnidcc hsafe_f
    · rw [findNodeById_mapAtId_self (fun n => by simp) f, hfprev]
      simp
  · exact idsOf_deleteNode nid _

/-- **C1 counterexample:** in `[A(collapsed, children=[X]), B]` the document
(depth-first) order is A, X, B — the node immediately before B is X (id 2) —
but `mergeIntoPrevious(B)` merges B into A (id 1), the previous *visible*
node: A's content becomes `"a b"` while X is left untouched. -/
theorem claim_C1_counterexample :
    (subtreeForest
      [NoteNode.mk 1 "a" [NoteNode.mk 2 "x" [] none none none none none 0 0]
         none none none none (some true) 0 0,
       NoteNode.mk 3 "b" [] none none none none none 0 0]).map NoteNode.id
      = [1, 2, 3]
    ∧ mergeIntoPrevious 3 9
      [NoteNode.mk 1 "a" [NoteNode.mk 2 "x" [] none none none none none 0 0]
         none none none none (some true) 0 0,
       NoteNode.mk 3 "b" [] none none none none none 0 0]
      = [NoteNode.mk 1 "a b" [NoteNode.mk 2 "x" [] none none none none none 0 0]
           none none none none (some true) 0 9] := by
  constructor
  · simp [subtreeForest_cons, NoteNode.id, NoteNode.children]
  · have hflat : flattenVisibleNodes
        [NoteNode.mk 1 "a" [NoteNode.mk 2 "x" [] none none none none none 0 0]
           none none none none (some true) 0 0,
         NoteNode.mk 3 "b" [] none none none none none 0 0]
        = [NoteNode.mk 1 "a" [NoteNode.mk 2 "x" [] none none none none none 0 0]
             none none none none (some true) 0 0,
           NoteNode.mk 3 "b" [] none none none none none 0 0] := by
      simp [flattenVisibleNodes, NoteNode.children, NoteNode.collapsed]
    have hupd : updateNodeContent 1 "a b" 9
        [NoteNode.mk 1 "a" [NoteNode.mk 2 "x" [] none none none none none 0 0]
           none none none none (some true) 0 0,
         NoteNode.mk 3 "b" [] none none none none none 0 0]
        = [NoteNode.mk 1 "a b" [NoteNode.mk 2 "x" [] none none none none none 0 0]
             none none none none (some true) 0 9,
           NoteNode.mk 3 "b" [] none none none none none 0 0] := by
      rw [updateNodeContent_eq]
      simp [NoteNode.id, NoteNode.children, NoteNode.withContentStamp]
    have hatt : attachChildrenTo 1 []
        [NoteNode.mk 1 "a b" [NoteNode.mk 2 "x" [] none none none none none 0 0]
             none none none none (some true) 0 9,
           NoteNode.mk 3 "b" [] none none none none none 0 0]
        = [NoteNode.mk 1 "a b" [NoteNode.mk 2 "x" [] none none none none none 0 0]
             none none none none (some true) 0 9,
           NoteNode.mk 3 "b" [] none none none none none 0 0] := by
      rw [attachChildrenTo_mapAtId]
      simp [mapAtId_cons, mapAtId_nil, NoteNode.id, NoteNode.children,
        NoteNode.withChildren]
    have hdel : deleteNode 3
        [NoteNode.mk 1 "a b" [NoteNode.mk 2 "x" [] none none none none none 0 0]
             none none none none (some true) 0 9,
           NoteNode.mk 3 "b" [] none none none none none 0 0]
        = [NoteNode.mk 1 "a b" [NoteNode.mk 2 "x" [] none none none none none 0 0]
             none none none none (some true) 0 9] := by
      simp [deleteNode_cons, deleteNode_nil, NoteNode.id, NoteNode.children,
        NoteNode.withChildren]
    have hidx : List.findIdx? (fun n => n.id == 3)
        [NoteNode.mk 1 "a" [NoteNode.mk 2 "x" [] none none none none none 0 0]
           none none none none (some true) 0 0,
         NoteNode.mk 3 "b" [] none none none none none 0 0] = some 1 := by
      simp [List.findIdx?_cons, NoteNode.id]
    have hf1 : findNodeById
        [NoteNode.mk 1 "a" [NoteNode.mk 2 "x" [] none none none none none 0 0]
           none none none none (some true) 0 0,
         NoteNode.mk 3 "b" [] none none none none none 0 0] 1
        = some (NoteNode.mk 1 "a"
            [NoteNode.mk 2 "x" [] none none none none none 0 0]
            none none none none (some true) 0 0) := by
      simp [findNodeById_cons, NoteNode.id]
    have hf3 : findNodeById
        [NoteNode.mk 1 "a" [NoteNode.mk 2 "x" [] none none none none none 0 0]
           none none none none (some true) 0 0,
         NoteNode.mk 3 "b" [] none none none none none 0 0] 3
        = some (NoteNode.mk 3 "b" [] none none none none none 0 0) := by
      simp [findNodeById_cons, findNodeById_nil, NoteNode.id, NoteNode.children]
    have hns : (endsNonWS (stripTags "a") && startsNonWS (stripTags "b")) = true := by
      simp [stripTags, stripTagsAux, endsNonWS, startsNonWS, jsWhitespace]
    simp only [mergeIntoPrevious, hflat, hidx]
    rw [if_pos (by norm_num : (0:Nat) < 1)]
    norm_num
    simp only [NoteNode.id, hf1, hf3, Option.map_some', Option.getD_some,
      NoteNode.content, NoteNode.children]
    have hns1 : endsNonWS (stripTags "a") = true := by
      simp [stripTags, stripTagsAux, endsNonWS, jsWhitespace]
    have hns2 : startsNonWS (stripTags "b") = true := by
      simp [stripTags, stripTagsAux, startsNonWS, jsWhitespace]
    rw [if_pos (And.intro hns1 hns2)]
    rw [show ("a" ++ " " ++ "b" : String) = "a b" from rfl, hupd, hatt, hdel]

/-- Witness for C1: in the two-root forest `[a, b]`, merging `b` (visible index
1) into its visible predecessor `a` (index 0) yields content `"a b"` and
removes node 2. -/
theorem claim_C1_merge_witness :
    NoDupIds [NoteNode.mk 1 "a" [] none none none none none 0 0,
              NoteNode.mk 2 "b" [] none none none none none 0 0]
    ∧ (flattenVisibleNodes
        [NoteNode.mk 1 "a" [] none none none none none 0 0,
         NoteNode.mk 2 "b" [] none none none none none 0 0])[0]?
        = some (NoteNode.mk 1 "a" [] none none none none none 0 0)
    ∧ (flattenVisibleNodes
        [NoteNode.mk 1 "a" [] none none none none none 0 0,
         NoteNode.mk 2 "b" [] none none none none none 0 0])[1]?
        = some (NoteNode.mk 2 "b" [] none none none none none 0 0)
    ∧ findNodeById (mergeIntoPrevious 2 9
        [NoteNode.mk 1 "a" [] none none none none none 0 0,
         NoteNode.mk 2 "b" [] none none none none none 0 0]) 1
        = some (NoteNode.mk 1 "a b" [] none none none none none 0 9)
    ∧ 2 ∉ idsOf (mergeIntoPrevious 2 9
        [NoteNode.mk 1 "a" [] none none none none none 0 0,
         NoteNode.mk 2 "b" [] none none none none none 0 0]) := by
  have hnd : NoDupIds [NoteNode.mk 1 "a" [] none none none none none 0 0,
      NoteNode.mk 2 "b" [] none none none none none 0 0] := by
    simp [NoDupIds, idsOf, subtreeForest_cons, NoteNode.id, NoteNode.children]
  have hp : (flattenVisibleNodes
      [NoteNode.mk 1 "a" [] none none none none none 0 0,
       NoteNode.mk 2 "b" [] none none none none none 0 0])[0]?
      = some (NoteNode.mk 1 "a" [] none none none none none 0 0) := by
    simp [flattenVisibleNodes, NoteNode.children]
  have hc : (flattenVisibleNodes
      [NoteNode.mk 1 "a" [] none none none none none 0 0,
       NoteNode.mk 2 "b" [] none none none none none 0 0])[1]?
      = some (NoteNode.mk 2 "b" [] none none none none none 0 0) := by
    simp [flattenVisibleNodes, NoteNode.children]
  have h := claim_C1_merge 2 9
    [NoteNode.mk 1 "a" [] none none none none none 0 0,
     NoteNode.mk 2 "b" [] none none none none none 0 0] 0
    (NoteNode.mk 1 "a" [] none none none none none 0 0)
    (NoteNode.mk 2 "b" [] none none none none none 0 0) hnd hp hc rfl
  refine ⟨hnd, hp, hc, ?_, h.2⟩
  have h1 := h.1
  simpa [NoteNode.withContentStamp, NoteNode.withChildren, NoteNode.content,
    NoteNode.children, NoteNode.id, deleteNode_nil, stripTags, stripTagsAux,
    endsNonWS, startsNonWS, jsWhitespace] using h1
